import Mathlib

/-!
Shallow embedding of the Nostr DM engine of `src/contexts/DMContext.tsx` and
`src/lib/dmMessageStore.ts`.

Conventions used throughout:
* JS numbers holding Unix timestamps (seconds or milliseconds) are `Int`.
* Optional JS fields (`decryptedContent?`, `error?`, `clientFirstSeen?`) are
  `Option`; the boolean flag `isSending?` is modelled as a `Bool` whose
  `false` covers both "absent" and "false" (the code only ever tests its
  truthiness).
* A JS `Map` (insertion ordered, unique keys) is an association list with
  `mapGet` (first match) and `mapSet` (replace first match in place, else
  append) — exactly `Map.get` / `Map.set` semantics.
* `Array.prototype.sort` with comparator `(a, b) => a.created_at - b.created_at`
  is a stable sort by `created_at`; the output of a stable sort is uniquely
  determined (sorted, ties in original order), so it is modelled by the stable
  insertion sort `sortByCreated`.
* Fallible external collaborators (relay queries, NIP-44 decryption, JSON
  parsing) are oracle parameters returning `Except Unit _`; a thrown JS
  exception is `Except.error ()`.
-/

/-- `MessageProtocol` from `lib/dmConstants` (`MESSAGE_PROTOCOL.NIP04 / NIP17`). -/
inductive MessageProtocol where
  | nip04
  | nip17
deriving DecidableEq, Repr

/-- A plain signed Nostr event (`NostrEvent` from nostrify). -/
structure NEvent where
  id : String
  pubkey : String
  kind : Nat
  created_at : Int
  tags : List (List String)
  content : String
  sig : String
deriving DecidableEq, Repr

/-- `DecryptedMessage` of `DMContext.tsx`: a `NostrEvent` plus the decrypted
view fields. -/
structure DecryptedMessage where
  id : String
  pubkey : String
  kind : Nat
  created_at : Int
  tags : List (List String)
  content : String
  sig : String
  decryptedContent : Option String := none
  error : Option String := none
  isSending : Bool := false
  clientFirstSeen : Option Int := none
  sealEvent : Option NEvent := none
deriving DecidableEq, Repr

/-- `ParticipantData` of `DMContext.tsx`. -/
structure ParticipantData where
  messages : List DecryptedMessage
  lastActivity : Int
  lastMessage : Option DecryptedMessage
  hasNIP4 : Bool
  hasNIP17 : Bool
deriving DecidableEq, Repr

/-- `MessagesState = Map<string, ParticipantData>` — a JS `Map` as an
insertion-ordered association list. -/
abbrev MessagesState := List (String × ParticipantData)

/-- `Map.get`: value of the first (unique) entry with the given key. -/
def mapGet : MessagesState → String → Option ParticipantData
  | [], _ => none
  | (k', v') :: rest, k => if k' = k then some v' else mapGet rest k

/-- `Map.set`: replace the first entry with the given key in place, or append
a new entry. -/
def mapSet : MessagesState → String → ParticipantData → MessagesState
  | [], k, v => [(k, v)]
  | (k', v') :: rest, k, v =>
    if k' = k then (k, v) :: rest else (k', v') :: mapSet rest k v

/-- `Map.has`. -/
def hasKey (S : MessagesState) (k : String) : Bool :=
  (mapGet S k).isSome

/-- `createEmptyParticipant` of `DMContext.tsx`. -/
def createEmptyParticipant : ParticipantData :=
  { messages := [], lastActivity := 0, lastMessage := none,
    hasNIP4 := false, hasNIP17 := false }

/-! ### Stable sort by `created_at`
`messages.sort((a, b) => a.created_at - b.created_at)`. -/

/-- Insert a message into an already-sorted list, before any later message
with an equal timestamp (so that folding over the original order is stable). -/
def insertByTs (m : DecryptedMessage) : List DecryptedMessage → List DecryptedMessage
  | [] => [m]
  | y :: ys => if m.created_at ≤ y.created_at then m :: y :: ys else y :: insertByTs m ys

/-- Stable sort by `created_at`, modelling the stable
`Array.prototype.sort((a, b) => a.created_at - b.created_at)`. -/
def sortByCreated : List DecryptedMessage → List DecryptedMessage
  | [] => []
  | m :: ms => insertByTs m (sortByCreated ms)

/-- Boolean "sorted non-decreasing by `created_at`". -/
def sortedByTs : List DecryptedMessage → Bool
  | [] => true
  | [_] => true
  | x :: y :: rest => x.created_at ≤ y.created_at && sortedByTs (y :: rest)

/-! ### State reducer (`DMContext.tsx`) -/

/-- `sortAndUpdateParticipantState` of `DMContext.tsx`. -/
def sortAndUpdateParticipantState (p : ParticipantData) : ParticipantData :=
  let sorted := sortByCreated p.messages
  match sorted.getLast? with
  | some last =>
    { p with messages := sorted, lastActivity := last.created_at, lastMessage := some last }
  | none => { p with messages := sorted }

/-- The optimistic-reconciliation predicate inside `addMessageToState`:
`msg.isSending && msg.pubkey === message.pubkey &&
 msg.decryptedContent === message.decryptedContent &&
 Math.abs(msg.created_at - message.created_at) <= 30`. -/
def matchesOptimistic (message msg : DecryptedMessage) : Bool :=
  msg.isSending && msg.pubkey = message.pubkey &&
    msg.decryptedContent = message.decryptedContent &&
    (msg.created_at - message.created_at).natAbs ≤ 30

/-- `findIndex` of the first pending optimistic twin followed by replacement
at that index, keeping the optimistic `created_at` and `clientFirstSeen`
(lines 779–794 of `DMContext.tsx`). `none` when no message matches. -/
def reconcileOptimistic (message : DecryptedMessage) :
    List DecryptedMessage → Option (List DecryptedMessage)
  | [] => none
  | msg :: rest =>
    if matchesOptimistic message msg then
      some ({ message with
                created_at := msg.created_at,
                clientFirstSeen := msg.clientFirstSeen } :: rest)
    else (reconcileOptimistic message rest).map (msg :: ·)

/-- `addMessageToState` of `DMContext.tsx`. -/
def addMessageToState (S : MessagesState) (message : DecryptedMessage)
    (conversationPartner : String) (protocol : MessageProtocol) : MessagesState :=
  match mapGet S conversationPartner with
  | some existing =>
    if existing.messages.any (fun msg => msg.id = message.id) then S
    else
      let updatedMessages :=
        match reconcileOptimistic message existing.messages with
        | some replaced => replaced
        | none => existing.messages ++ [message]
      let sorted := sortByCreated updatedMessages
      let actualLastMessage := sorted.getLastD message
      mapSet S conversationPartner
        { existing with
            messages := sorted,
            lastActivity := actualLastMessage.created_at,
            lastMessage := some actualLastMessage,
            hasNIP4 := if protocol = .nip04 then true else existing.hasNIP4,
            hasNIP17 := if protocol = .nip17 then true else existing.hasNIP17 }
  | none =>
    mapSet S conversationPartner
      { messages := [message],
        lastActivity := message.created_at,
        lastMessage := some message,
        hasNIP4 := protocol = .nip04,
        hasNIP17 := protocol = .nip17 }

/-- The per-participant body of `mergeMessagesIntoState` when the partner
already has a bucket (lines 740–758 of `DMContext.tsx`). -/
def mergeParticipant (existing value : ParticipantData) : ParticipantData :=
  let existingMessageIds := existing.messages.map (·.id)
  let newMessages := value.messages.filter (fun msg => ! existingMessageIds.contains msg.id)
  let mergedMessages := sortByCreated (existing.messages ++ newMessages)
  let lastMessage := mergedMessages.getLast?
  let lastActivity := match lastMessage with
    | some lm => lm.created_at
    | none => existing.lastActivity
  { existing with
      messages := mergedMessages,
      lastActivity := lastActivity,
      lastMessage := lastMessage,
      hasNIP4 := existing.hasNIP4 || value.hasNIP4,
      hasNIP17 := existing.hasNIP17 || value.hasNIP17 }

/-- `mergeMessagesIntoState` of `DMContext.tsx` (`newState.forEach` over the
delta map, folded into the previous map). -/
def mergeMessagesIntoState (prev newState : MessagesState) : MessagesState :=
  newState.foldl
    (fun finalMap kv =>
      match mapGet finalMap kv.1 with
      | some existing => mapSet finalMap kv.1 (mergeParticipant existing kv.2)
      | none => mapSet finalMap kv.1 kv.2)
    prev

/-! ### NIP-04 ingestion (`DMContext.tsx`, `dmMessageStore.ts`) -/

/-- `validateDMEvent` of `dmMessageStore.ts` / `dmUtils`: kind 4, has a `p`
tag, non-empty content. -/
def validateDMEvent (event : NEvent) : Bool :=
  event.kind = 4 && event.tags.any (fun t => t.head? = some "p") && event.content ≠ ""

/-- `event.tags?.find(([name]) => name === 'p')?.[1]`. -/
def nip4PTagValue (event : NEvent) : Option String :=
  (event.tags.find? (fun t => t.head? = some "p")).bind (fun t => t.get? 1)

/-- Conversation-partner inference for a kind-4 event: the `p`-tag value when
the author is the user, otherwise the author. -/
def nip4ConversationPartner (event : NEvent) (userPubkey : String) : Option String :=
  if event.pubkey = userPubkey then nip4PTagValue event else some event.pubkey

/-- `DecryptionResult` of `DMContext.tsx`. -/
structure DecryptionResult where
  decryptedContent : String
  error : Option String := none
deriving DecidableEq, Repr

/-- `decryptNIP4Message`: the signer's `nip04.decrypt` is an oracle
`peer → ciphertext → Except Unit plaintext`, absent when the signer lacks
NIP-04 support. -/
def decryptNIP4Message (nip04decrypt : Option (String → String → Except Unit String))
    (event : NEvent) (otherPubkey : String) : DecryptionResult :=
  match nip04decrypt with
  | some dec =>
    match dec otherPubkey event.content with
    | .ok s => { decryptedContent := s }
    | .error _ => { decryptedContent := "", error := some "Decryption failed" }
  | none => { decryptedContent := "", error := some "No NIP-04 decryption available" }

/-- Build the `DecryptedMessage` for a kind-4 event, stamping
`clientFirstSeen` when the message is less than 5 s old
(`Date.now() - created_at * 1000 < 5000`). -/
def nip4DecryptedMessage (event : NEvent) (res : DecryptionResult) (nowMs : Int) :
    DecryptedMessage :=
  let base : DecryptedMessage :=
    { id := event.id, pubkey := event.pubkey, kind := event.kind,
      created_at := event.created_at, tags := event.tags, content := event.content,
      sig := event.sig, decryptedContent := some res.decryptedContent, error := res.error }
  if nowMs - event.created_at * 1000 < 5000 then { base with clientFirstSeen := some nowMs }
  else base

/-- `processIncomingNIP4Message` of `DMContext.tsx` (subscription path).
Rejects invalid events and events whose partner is absent, empty (falsy) or
the user themself. -/
def processIncomingNIP4Message (S : MessagesState) (userPubkey : String)
    (nip04decrypt : Option (String → String → Except Unit String))
    (event : NEvent) (nowMs : Int) : MessagesState :=
  if ¬ validateDMEvent event then S
  else
    match nip4ConversationPartner event userPubkey with
    | none => S
    | some otherPubkey =>
      if otherPubkey = "" ∨ otherPubkey = userPubkey then S
      else
        addMessageToState S
          (nip4DecryptedMessage event (decryptNIP4Message nip04decrypt event otherPubkey) nowMs)
          otherPubkey .nip04

/-! ### Send pipeline (`DMContext.tsx`) -/

/-- `FileAttachment` of `DMContext.tsx`. -/
structure FileAttachment where
  url : String
  mimeType : String
  size : Nat
  name : String
  tags : List (List String)
deriving DecidableEq, Repr

/-- `prepareMessageContent`: append attachment URLs after a blank line. -/
def prepareMessageContent (content : String) (attachments : List FileAttachment) : String :=
  if attachments.isEmpty then content
  else
    let fileUrls := String.intercalate "\n" (attachments.map (·.url))
    if content = "" then fileUrls else content ++ "\n\n" ++ fileUrls

/-- `createImetaTags` (NIP-92): JS string interpolation `'x ' + tag[1]`
renders a missing `tag[1]` as `"undefined"`. -/
def createImetaTags (attachments : List FileAttachment) : List (List String) :=
  attachments.map (fun file =>
    let t0 := ["imeta", "url " ++ file.url]
    let t1 := if file.mimeType ≠ "" then t0 ++ ["m " ++ file.mimeType] else t0
    let t2 := if file.size ≠ 0 then t1 ++ ["size " ++ toString file.size] else t1
    let t3 := if file.name ≠ "" then t2 ++ ["alt " ++ file.name] else t2
    file.tags.foldl
      (fun acc tag =>
        let acc1 := if tag.head? = some "x" then acc ++ ["x " ++ (tag.get? 1).getD "undefined"] else acc
        if tag.head? = some "ox" then acc1 ++ ["ox " ++ (tag.get? 1).getD "undefined"] else acc1)
      t3)

/-- The optimistic `DecryptedMessage` built at the top of `sendMessage`. -/
def optimisticMessage (userPubkey recipientPubkey content : String)
    (protocol : MessageProtocol) (optimisticId : String) (nowSec nowMs : Int) :
    DecryptedMessage :=
  { id := optimisticId,
    kind := if protocol = .nip04 then 4 else 14,
    pubkey := userPubkey,
    created_at := nowSec,
    tags := [["p", recipientPubkey]],
    content := "",
    decryptedContent := some content,
    sig := "",
    isSending := true,
    clientFirstSeen := some nowMs }

/-- The state effect of `sendMessage` before any network work: insert the
optimistic message for the recipient through `addMessageToState`. -/
def sendMessageOptimistic (S : MessagesState) (userPubkey recipientPubkey content : String)
    (protocol : MessageProtocol) (optimisticId : String) (nowSec nowMs : Int) : MessagesState :=
  addMessageToState S
    (optimisticMessage userPubkey recipientPubkey content protocol optimisticId nowSec nowMs)
    recipientPubkey protocol

/-- The kind-4 event published by `sendNIP4Message` (`id`, `created_at`, `sig`
are produced by the signing `createEvent`; `nip04encrypt` is the signer's
`nip04.encrypt`). -/
def sendNIP4EventTemplate (userPubkey recipientPubkey content : String)
    (attachments : List FileAttachment) (nip04encrypt : String → String → String)
    (id : String) (created_at : Int) (sig : String) : NEvent :=
  { id := id, pubkey := userPubkey, kind := 4, created_at := created_at,
    tags := ["p", recipientPubkey] :: createImetaTags attachments,
    content := nip04encrypt recipientPubkey (prepareMessageContent content attachments),
    sig := sig }

/-! ### NIP-17 decoding (`DMContext.tsx`) -/

/-- `NIP17ProcessingResult` of `DMContext.tsx`. -/
structure GiftWrapResult where
  processedMessage : DecryptedMessage
  conversationPartner : String
  sealEvent : NEvent
deriving DecidableEq, Repr

/-- The errored `DecryptedMessage` produced by `processNIP17GiftWrap`
(`{...event, content: '', decryptedContent: '', error}`). -/
def nip17ErrorMessage (event : NEvent) (error : String) : DecryptedMessage :=
  { id := event.id, pubkey := event.pubkey, kind := event.kind,
    created_at := event.created_at, tags := event.tags, content := "",
    sig := event.sig, decryptedContent := some "", error := some error }

/-- Fallback id for an inner event with a falsy `id`:
"missing-nip17-inner-(created_at)-(pubkey prefix)-(content prefix)". -/
def nip17FallbackId (messageEvent : NEvent) : String :=
  "missing-nip17-inner-" ++ toString messageEvent.created_at ++ "-" ++
    (messageEvent.pubkey.take 8) ++ "-" ++ (messageEvent.content.take 16)

/-- `processNIP17GiftWrap` of `DMContext.tsx`. The signer's `nip44.decrypt`
and `JSON.parse`-as-`NostrEvent` are oracles; `Except.error` is a thrown
exception, landing in the catch-all branch exactly as in the source. -/
def processNIP17GiftWrap (nip44decrypt : Option (String → String → Except Unit String))
    (parseEvent : String → Except Unit NEvent) (userPubkey : String)
    (event : NEvent) : GiftWrapResult :=
  match nip44decrypt with
  | none =>
    { processedMessage := nip17ErrorMessage event "No NIP-44 decryption available",
      conversationPartner := event.pubkey, sealEvent := event }
  | some dec =>
    let catchAll : GiftWrapResult :=
      { processedMessage := nip17ErrorMessage event "Failed to decrypt or parse NIP-17 message",
        conversationPartner := event.pubkey, sealEvent := event }
    match dec event.pubkey event.content with
    | .error _ => catchAll
    | .ok sealContent =>
      match parseEvent sealContent with
      | .error _ => catchAll
      | .ok sealEvent =>
        if sealEvent.kind ≠ 13 then
          { processedMessage := nip17ErrorMessage event
              ("Invalid Seal format - expected kind 13, got " ++ toString sealEvent.kind),
            conversationPartner := event.pubkey, sealEvent := event }
        else
          match dec sealEvent.pubkey sealEvent.content with
          | .error _ => catchAll
          | .ok messageContent =>
            match parseEvent messageContent with
            | .error _ => catchAll
            | .ok messageEvent =>
              if messageEvent.kind ≠ 14 ∧ messageEvent.kind ≠ 15 then
                { processedMessage := nip17ErrorMessage event
                    ("Invalid message format - expected kind 14 or 15, got " ++
                      toString messageEvent.kind),
                  conversationPartner := event.pubkey, sealEvent := sealEvent }
              else
                let success (conversationPartner : String) : GiftWrapResult :=
                  { processedMessage :=
                      { id := if messageEvent.id = "" then nip17FallbackId messageEvent
                              else messageEvent.id,
                        pubkey := messageEvent.pubkey, kind := messageEvent.kind,
                        created_at := messageEvent.created_at, tags := messageEvent.tags,
                        content := event.content, sig := messageEvent.sig,
                        decryptedContent := some messageEvent.content },
                    conversationPartner := conversationPartner, sealEvent := sealEvent }
                if sealEvent.pubkey = userPubkey then
                  match (messageEvent.tags.find? (fun t => t.head? = some "p")).bind
                      (fun t => t.get? 1) with
                  | none =>
                    { processedMessage := nip17ErrorMessage event
                        "Invalid recipient - malformed p tag",
                      conversationPartner := event.pubkey, sealEvent := sealEvent }
                  | some recipient =>
                    if recipient = "" ∨ recipient = userPubkey then
                      { processedMessage := nip17ErrorMessage event
                          "Invalid recipient - malformed p tag",
                        conversationPartner := event.pubkey, sealEvent := sealEvent }
                    else success recipient
                else success sealEvent.pubkey

/-- The wrapper built by the NIP-17 ingestion paths: keep the outer encrypted
content for reference, attach the seal, stamp `clientFirstSeen` when the inner
timestamp is less than 5 s old. -/
def nip17MessageWithAnimation (r : GiftWrapResult) (outerContent : String) (nowMs : Int) :
    DecryptedMessage :=
  let m0 := { r.processedMessage with content := outerContent, sealEvent := some r.sealEvent }
  if nowMs - r.processedMessage.created_at * 1000 < 5000 then
    { m0 with clientFirstSeen := some nowMs }
  else m0

/-- `processIncomingNIP17Message` of `DMContext.tsx` (subscription path). -/
def processIncomingNIP17Message (S : MessagesState) (userPubkey : String)
    (nip44decrypt : Option (String → String → Except Unit String))
    (parseEvent : String → Except Unit NEvent) (event : NEvent) (nowMs : Int) : MessagesState :=
  if event.kind ≠ 1059 then S
  else
    let r := processNIP17GiftWrap nip44decrypt parseEvent userPubkey event
    addMessageToState S (nip17MessageWithAnimation r event.content nowMs)
      r.conversationPartner .nip17

/-! ### Batched relay fetcher (`DMContext.tsx`) -/

def SCAN_TOTAL_LIMIT : Nat := 20000
def SCAN_BATCH_SIZE : Nat := 1000
def TWO_DAYS_IN_SECONDS : Int := 2 * 24 * 60 * 60
def SUBSCRIPTION_OVERLAP_SECONDS : Int := 10

/-- `Math.min(...events.map(m => m.created_at))` guarded by non-emptiness
(`Infinity` when the list is empty is `none`). -/
def minTs? (l : List NEvent) : Option Int :=
  (l.map (·.created_at)).min?

/-- Pagination update of `loadPastNIP4Messages`: advance `currentSince` to the
oldest timestamp among the "to me" and "from me" halves of the batch, keeping
it unchanged when both halves are empty. -/
def nip4NextSince (validBatchDMs : List NEvent) (userPubkey : String)
    (currentSince : Int) : Int :=
  let oldestToMe := minTs? (validBatchDMs.filter (fun m => m.pubkey ≠ userPubkey))
  let oldestFromMe := minTs? (validBatchDMs.filter (fun m => m.pubkey = userPubkey))
  match oldestToMe, oldestFromMe with
  | none, none => currentSince
  | some a, none => a
  | none, some b => b
  | some a, some b => min a b

/-- The `while` loop of `loadPastNIP4Messages`. `query since limit` is one
`nostr.query` round-trip with the two OR'd kind-4 filters (each carrying
`limit`); `Except.error` is a thrown/timed-out query. The `fuel` argument only
bounds the iteration count: every continuing iteration strictly increases
`processedMessages` (by at least `2 * batchLimit ≥ 2`), so with initial fuel
`SCAN_TOTAL_LIMIT + 1` the fuel never runs out and the definition agrees with
the source's unbounded `while`. -/
def loadPastNIP4Loop (query : Int → Nat → Except Unit (List NEvent)) (userPubkey : String) :
    Nat → List NEvent → Nat → Int → List NEvent
  | 0, allMessages, _, _ => allMessages
  | fuel + 1, allMessages, processedMessages, currentSince =>
    if processedMessages < SCAN_TOTAL_LIMIT then
      let batchLimit := min SCAN_BATCH_SIZE (SCAN_TOTAL_LIMIT - processedMessages)
      match query currentSince batchLimit with
      | .error _ => allMessages
      | .ok batchDMs =>
        let validBatchDMs := batchDMs.filter validateDMEvent
        if validBatchDMs.length = 0 then allMessages
        else
          let allMessages' := allMessages ++ validBatchDMs
          let processed' := processedMessages + validBatchDMs.length
          let since' := nip4NextSince validBatchDMs userPubkey currentSince
          if validBatchDMs.length < batchLimit * 2 then allMessages'
          else loadPastNIP4Loop query userPubkey fuel allMessages' processed' since'
    else allMessages

/-- Initial `currentSince` of `loadPastNIP4Messages`: `sinceTimestamp || 0`. -/
def nip4InitialSince : Option Int → Int
  | some s => s
  | none => 0

/-- `loadPastNIP4Messages` of `DMContext.tsx`. -/
def loadPastNIP4Messages (query : Int → Nat → Except Unit (List NEvent))
    (userPubkey : String) (sinceTimestamp : Option Int) : List NEvent :=
  loadPastNIP4Loop query userPubkey (SCAN_TOTAL_LIMIT + 1) [] 0 (nip4InitialSince sinceTimestamp)

/-- Initial `currentSince` of `loadPastNIP17Messages`:
`sinceTimestamp ? sinceTimestamp - TWO_DAYS_IN_SECONDS : 0` (a `0` timestamp
is falsy). -/
def nip17InitialSince : Option Int → Int
  | some s => if s = 0 then 0 else s - TWO_DAYS_IN_SECONDS
  | none => 0

/-- The `while` loop of `loadPastNIP17Messages`; same fuel convention as
`loadPastNIP4Loop` (every continuing iteration adds `batchLimit ≥ 1`). -/
def loadPastNIP17Loop (query : Int → Nat → Except Unit (List NEvent)) :
    Nat → List NEvent → Nat → Int → List NEvent
  | 0, allNIP17Events, _, _ => allNIP17Events
  | fuel + 1, allNIP17Events, processedMessages, currentSince =>
    if processedMessages < SCAN_TOTAL_LIMIT then
      let batchLimit := min SCAN_BATCH_SIZE (SCAN_TOTAL_LIMIT - processedMessages)
      match query currentSince batchLimit with
      | .error _ => allNIP17Events
      | .ok batchEvents =>
        if batchEvents.length = 0 then allNIP17Events
        else
          let all' := allNIP17Events ++ batchEvents
          let processed' := processedMessages + batchEvents.length
          let since' := (minTs? batchEvents).getD currentSince
          if batchEvents.length < batchLimit then all'
          else loadPastNIP17Loop query fuel all' processed' since'
    else allNIP17Events

/-- `loadPastNIP17Messages` of `DMContext.tsx`: the first relay filter uses
`since = nip17InitialSince sinceTimestamp`, i.e. the given timestamp shifted
back two days to compensate timestamp fuzzing. -/
def loadPastNIP17Messages (query : Int → Nat → Except Unit (List NEvent))
    (sinceTimestamp : Option Int) : List NEvent :=
  loadPastNIP17Loop query (SCAN_TOTAL_LIMIT + 1) [] 0 (nip17InitialSince sinceTimestamp)

/-! ### Live subscription `since` computation (`DMContext.tsx`) -/

/-- The `since` placed in the kind-1059 filter by `startNIP17Subscription`:
`sinceTimestamp || now`, overridden by `lastSync.nip17 - 10` when no (truthy)
explicit timestamp is given and `lastSync.nip17` is truthy, then shifted back
two days for timestamp fuzzing. -/
def startNIP17SubscriptionSince (sinceTimestamp lastSyncNip17 : Option Int)
    (nowSec : Int) : Int :=
  let s0 : Int := match sinceTimestamp with
    | some s => if s = 0 then nowSec else s
    | none => nowSec
  let sinceFalsy : Bool := match sinceTimestamp with
    | some s => s = 0
    | none => true
  let lastTruthy : Bool := match lastSyncNip17 with
    | some l => l ≠ 0
    | none => false
  let s1 := if sinceFalsy && lastTruthy then lastSyncNip17.getD 0 - SUBSCRIPTION_OVERLAP_SECONDS
            else s0
  s1 - TWO_DAYS_IN_SECONDS

/-! ### `queryRelaysForMessagesSince` (`DMContext.tsx`) -/

/-- Return record of `queryRelaysForMessagesSince`, enriched with the state
and `lastSync` effects the source performs through `setMessages` /
`setLastSync`. `lastSyncValue` is the protocol's `lastSync` after the call. -/
structure QueryOutcome where
  state : MessagesState
  lastSyncValue : Option Int
  lastMessageTimestamp : Option Int
  messageCount : Nat
deriving Repr

/-- `messages.reduce((newest, msg) => msg.created_at > newest.created_at ? msg : newest)`. -/
def newestTimestamp : List NEvent → Option Int
  | [] => none
  | m :: rest =>
    some ((rest.foldl (fun newest msg =>
      if msg.created_at > newest.created_at then msg else newest) m).created_at)

/-- The per-message bucketing of the NIP-04 branch of
`queryRelaysForMessagesSince` (decrypt, build `DecryptedMessage`, push into
the partner's fresh bucket, set `hasNIP4`). -/
def buildNIP4Delta (userPubkey : String)
    (nip04decrypt : Option (String → String → Except Unit String))
    (nowMs : Int) (messages : List NEvent) : MessagesState :=
  messages.foldl
    (fun newState message =>
      match nip4ConversationPartner message userPubkey with
      | none => newState
      | some otherPubkey =>
        if otherPubkey = "" ∨ otherPubkey = userPubkey then newState
        else
          let dm := nip4DecryptedMessage message
            (decryptNIP4Message nip04decrypt message otherPubkey) nowMs
          let participant := (mapGet newState otherPubkey).getD createEmptyParticipant
          mapSet newState otherPubkey
            { participant with messages := participant.messages ++ [dm], hasNIP4 := true })
    []

/-- The per-gift-wrap bucketing of the NIP-17 branch of
`queryRelaysForMessagesSince`. -/
def buildNIP17Delta (userPubkey : String)
    (nip44decrypt : Option (String → String → Except Unit String))
    (parseEvent : String → Except Unit NEvent)
    (nowMs : Int) (messages : List NEvent) : MessagesState :=
  messages.foldl
    (fun newState giftWrap =>
      let r := processNIP17GiftWrap nip44decrypt parseEvent userPubkey giftWrap
      let m := nip17MessageWithAnimation r giftWrap.content nowMs
      let participant := (mapGet newState r.conversationPartner).getD createEmptyParticipant
      mapSet newState r.conversationPartner
        { participant with messages := participant.messages ++ [m], hasNIP17 := true })
    []

/-- `newState.forEach(participant => sortAndUpdateParticipantState(participant))`. -/
def sortAllParticipants (S : MessagesState) : MessagesState :=
  S.map (fun kv => (kv.1, sortAndUpdateParticipantState kv.2))

/-- NIP-04 branch of `queryRelaysForMessagesSince`: fetch, decrypt+bucket,
merge, and update `lastSync.nip4` to the current wall-clock time in both the
"new messages" and the "no new messages" branch. -/
def queryRelaysNIP4 (query : Int → Nat → Except Unit (List NEvent))
    (nip04decrypt : Option (String → String → Except Unit String))
    (userPubkey : Option String) (S : MessagesState) (lastSyncNip4 : Option Int)
    (sinceTimestamp : Option Int) (nowSec nowMs : Int) : QueryOutcome :=
  match userPubkey with
  | none =>
    { state := S, lastSyncValue := lastSyncNip4,
      lastMessageTimestamp := sinceTimestamp, messageCount := 0 }
  | some u =>
    let messages := loadPastNIP4Messages query u sinceTimestamp
    if messages.length > 0 then
      let newState := sortAllParticipants (buildNIP4Delta u nip04decrypt nowMs messages)
      { state := mergeMessagesIntoState S newState,
        lastSyncValue := some nowSec,
        lastMessageTimestamp := newestTimestamp messages,
        messageCount := messages.length }
    else
      { state := S, lastSyncValue := some nowSec,
        lastMessageTimestamp := sinceTimestamp, messageCount := 0 }

/-- NIP-17 branch of `queryRelaysForMessagesSince`, including the
`enableNIP17` early return. -/
def queryRelaysNIP17 (query : Int → Nat → Except Unit (List NEvent))
    (nip44decrypt : Option (String → String → Except Unit String))
    (parseEvent : String → Except Unit NEvent) (enableNIP17 : Bool)
    (userPubkey : Option String) (S : MessagesState) (lastSyncNip17 : Option Int)
    (sinceTimestamp : Option Int) (nowSec nowMs : Int) : QueryOutcome :=
  if ¬ enableNIP17 then
    { state := S, lastSyncValue := lastSyncNip17,
      lastMessageTimestamp := sinceTimestamp, messageCount := 0 }
  else
    match userPubkey with
    | none =>
      { state := S, lastSyncValue := lastSyncNip17,
        lastMessageTimestamp := sinceTimestamp, messageCount := 0 }
    | some u =>
      let messages := loadPastNIP17Messages query sinceTimestamp
      if messages.length > 0 then
        let newState :=
          sortAllParticipants (buildNIP17Delta u nip44decrypt parseEvent nowMs messages)
        { state := mergeMessagesIntoState S newState,
          lastSyncValue := some nowSec,
          lastMessageTimestamp := newestTimestamp messages,
          messageCount := messages.length }
      else
        { state := S, lastSyncValue := some nowSec,
          lastMessageTimestamp := sinceTimestamp, messageCount := 0 }

/-! ### Persisted cache document (`writeAllMessagesToStore`, `dmMessageStore.ts`) -/

/-- A participant as persisted in the cache document. -/
structure StoredParticipant where
  messages : List NEvent
  lastActivity : Int
  hasNIP4 : Bool
  hasNIP17 : Bool
deriving DecidableEq, Repr

/-- `MessageStore` of `dmMessageStore.ts` (the `CacheDocument`); the
`participants` record keeps insertion order. -/
structure MessageStore where
  participants : List (String × StoredParticipant)
  lastSyncNip4 : Option Int
  lastSyncNip17 : Option Int
deriving DecidableEq, Repr

/-- The per-message projection of `writeAllMessagesToStore`:
`content: msg.decryptedContent || msg.content` (an empty decrypted content is
falsy and falls back to the raw `content` field). -/
def storeMessage (msg : DecryptedMessage) : NEvent :=
  { id := msg.id, pubkey := msg.pubkey,
    content := match msg.decryptedContent with
      | some s => if s = "" then msg.content else s
      | none => msg.content,
    created_at := msg.created_at, kind := msg.kind, tags := msg.tags, sig := msg.sig }

/-- The `MessageStore` document built by `writeAllMessagesToStore` and handed
to `writeMessagesToDB`. -/
def writeAllMessagesToStore (S : MessagesState)
    (lastSyncNip4 lastSyncNip17 : Option Int) : MessageStore :=
  { participants := S.map (fun kv =>
      (kv.1,
        { messages := kv.2.messages.map storeMessage,
          lastActivity := kv.2.lastActivity,
          hasNIP4 := kv.2.hasNIP4,
          hasNIP17 := kv.2.hasNIP17 })),
    lastSyncNip4 := lastSyncNip4,
    lastSyncNip17 := lastSyncNip17 }

/-! ### Encrypted cache store (`dmMessageStore.ts`) -/

/-- A value in the IndexedDB object store: either a plain `MessageStore` or
the `{ encrypted: true, data }` envelope (the `isEncryptedStore` type guard
distinguishes them; a `MessageStore` object never has an `encrypted` field). -/
inductive StoredValue where
  | plain : MessageStore → StoredValue
  | encryptedEnv : String → StoredValue
deriving DecidableEq, Repr

/-- The `messages` object store, keyed by user pubkey. -/
abbrev DMDatabase := List (String × StoredValue)

/-- `db.get(STORE_NAME, key)`. -/
def dbGet : DMDatabase → String → Option StoredValue
  | [], _ => none
  | (k', v') :: rest, k => if k' = k then some v' else dbGet rest k

/-- `db.put(STORE_NAME, value, key)`. -/
def dbPut : DMDatabase → String → StoredValue → DMDatabase
  | [], k, v => [(k, v)]
  | (k', v') :: rest, k, v =>
    if k' = k then (k, v) :: rest else (k', v') :: dbPut rest k v

/-- The `nip44` capability of a signer: `encrypt` and `decrypt` against a
pubkey (`decrypt` may throw). -/
structure NIP44Signer where
  encrypt : String → String → String
  decrypt : String → String → Except Unit String

/-- `writeMessagesToDB` of `dmMessageStore.ts`; `stringify` is
`JSON.stringify`. A signer without `nip44` is `none`. -/
def writeMessagesToDB (stringify : MessageStore → String) (db : DMDatabase)
    (userPubkey : String) (messageStore : MessageStore)
    (signer : Option NIP44Signer) : DMDatabase :=
  match signer with
  | some s =>
    dbPut db userPubkey (.encryptedEnv (s.encrypt userPubkey (stringify messageStore)))
  | none => dbPut db userPubkey (.plain messageStore)

/-- `readMessagesFromDB` of `dmMessageStore.ts`; `parse` is
`JSON.parse` as `MessageStore`. Returns `none` on miss, on an encrypted
envelope without a NIP-44 signer, and on decrypt/parse failure. -/
def readMessagesFromDB (parse : String → Except Unit MessageStore) (db : DMDatabase)
    (userPubkey : String) (signer : Option NIP44Signer) : Option MessageStore :=
  match dbGet db userPubkey with
  | none => none
  | some (.encryptedEnv data) =>
    match signer with
    | none => none
    | some s =>
      match s.decrypt userPubkey data with
      | .error _ => none
      | .ok decrypted =>
        match parse decrypted with
        | .ok messageStore => some messageStore
        | .error _ => none
  | some (.plain messageStore) => some messageStore

/-! ### Helper lemmas about the stable sort -/

theorem insertByTs_perm (m : DecryptedMessage) (l : List DecryptedMessage) :
    (insertByTs m l).Perm (m :: l) := by
  induction l with
  | nil => simp [insertByTs]
  | cons y ys ih =>
    simp only [insertByTs]
    split
    · exact List.Perm.refl _
    · exact (List.Perm.cons y ih).trans (List.Perm.swap m y ys)

theorem sortByCreated_perm (l : List DecryptedMessage) :
    (sortByCreated l).Perm l := by
  induction l with
  | nil => simp [sortByCreated]
  | cons m ms ih =>
    simpa [sortByCreated] using (insertByTs_perm m (sortByCreated ms)).trans (ih.cons m)

theorem mem_sortByCreated {a : DecryptedMessage} {l : List DecryptedMessage} :
    a ∈ sortByCreated l ↔ a ∈ l :=
  (sortByCreated_perm l).mem_iff

theorem length_sortByCreated (l : List DecryptedMessage) :
    (sortByCreated l).length = l.length :=
  (sortByCreated_perm l).length_eq

theorem sortByCreated_ne_nil {l : List DecryptedMessage} (h : l ≠ []) :
    sortByCreated l ≠ [] := by
  intro hc
  have hlen := length_sortByCreated l
  rw [hc] at hlen
  exact h (List.length_eq_zero.1 hlen.symm)

theorem sortedByTs_cons_cons {x y : DecryptedMessage} {l : List DecryptedMessage} :
    sortedByTs (x :: y :: l) = true ↔
      (x.created_at ≤ y.created_at ∧ sortedByTs (y :: l) = true) := by
  simp [sortedByTs]

theorem sortedByTs_insertByTs {m : DecryptedMessage} {l : List DecryptedMessage}
    (h : sortedByTs l = true) : sortedByTs (insertByTs m l) = true := by
  induction l with
  | nil => simp [insertByTs, sortedByTs]
  | cons y ys ih =>
    simp only [insertByTs]
    by_cases hle : m.created_at ≤ y.created_at
    · simp only [if_pos hle]
      exact sortedByTs_cons_cons.2 ⟨hle, h⟩
    · simp only [if_neg hle]
      have hys : sortedByTs ys = true := by
        cases ys with
        | nil => rfl
        | cons z zs => exact (sortedByTs_cons_cons.1 h).2
      have hins := ih hys
      cases ys with
      | nil =>
        simp only [insertByTs]
        exact sortedByTs_cons_cons.2 ⟨le_of_lt (lt_of_not_le hle), rfl⟩
      | cons z zs =>
        have hyz : y.created_at ≤ z.created_at := (sortedByTs_cons_cons.1 h).1
        simp only [insertByTs] at hins ⊢
        by_cases hmz : m.created_at ≤ z.created_at
        · simp only [if_pos hmz] at hins ⊢
          exact sortedByTs_cons_cons.2 ⟨le_of_lt (lt_of_not_le hle), hins⟩
        · simp only [if_neg hmz] at hins ⊢
          exact sortedByTs_cons_cons.2 ⟨hyz, hins⟩

theorem sortedByTs_sortByCreated (l : List DecryptedMessage) :
    sortedByTs (sortByCreated l) = true := by
  induction l with
  | nil => rfl
  | cons m ms ih => exact sortedByTs_insertByTs ih

theorem sortByCreated_of_sorted {l : List DecryptedMessage}
    (h : sortedByTs l = true) : sortByCreated l = l := by
  induction l with
  | nil => rfl
  | cons m ms ih =>
    have hms : sortedByTs ms = true := by
      cases ms with
      | nil => rfl
      | cons y ys => exact (sortedByTs_cons_cons.1 h).2
    simp only [sortByCreated, ih hms]
    cases ms with
    | nil => rfl
    | cons y ys =>
      have hmy : m.created_at ≤ y.created_at := (sortedByTs_cons_cons.1 h).1
      simp [insertByTs, if_pos hmy]

theorem sortByCreated_idem (l : List DecryptedMessage) :
    sortByCreated (sortByCreated l) = sortByCreated l :=
  sortByCreated_of_sorted (sortedByTs_sortByCreated l)

/-! ### Helper lemmas about the `Map` model -/

theorem mapGet_cons (ka : String) (va : ParticipantData) (rest : MessagesState)
    (k : String) :
    mapGet ((ka, va) :: rest) k = if ka = k then some va else mapGet rest k := rfl

theorem mapGet_mapSet_self (S : MessagesState) (k : String) (v : ParticipantData) :
    mapGet (mapSet S k v) k = some v := by
  induction S with
  | nil => simp [mapSet, mapGet]
  | cons kv rest ih =>
    obtain ⟨ka, va⟩ := kv
    by_cases hk : ka = k
    · simp [mapSet, if_pos hk, mapGet]
    · simp [mapSet, if_neg hk, mapGet, hk, ih]

theorem mapGet_mapSet_ne (S : MessagesState) (k k' : String) (v : ParticipantData)
    (h : k' ≠ k) : mapGet (mapSet S k v) k' = mapGet S k' := by
  induction S with
  | nil =>
    have hne : ¬ k = k' := fun hh => h hh.symm
    simp [mapSet, mapGet, hne]
  | cons kv rest ih =>
    obtain ⟨ka, va⟩ := kv
    by_cases hk : ka = k
    · subst hk
      have hne : ¬ ka = k' := fun hh => h hh.symm
      simp [mapSet, mapGet, hne]
    · simp [mapSet, if_neg hk, mapGet, ih]

theorem mapSet_self {S : MessagesState} {k : String} {v : ParticipantData}
    (h : mapGet S k = some v) : mapSet S k v = S := by
  induction S with
  | nil => simp [mapGet] at h
  | cons kv rest ih =>
    obtain ⟨ka, va⟩ := kv
    rw [mapGet_cons] at h
    by_cases hk : ka = k
    · rw [if_pos hk] at h
      obtain rfl : va = v := by injection h
      simp [mapSet, if_pos hk, hk]
    · rw [if_neg hk] at h
      simp [mapSet, if_neg hk, ih h]

theorem mem_mapSet {S : MessagesState} {k : String} {v : ParticipantData}
    {p : String × ParticipantData} (h : p ∈ mapSet S k v) : p ∈ S ∨ p = (k, v) := by
  induction S with
  | nil =>
    simp only [mapSet, List.mem_singleton] at h
    exact Or.inr h
  | cons kv rest ih =>
    obtain ⟨ka, va⟩ := kv
    by_cases hk : ka = k
    · simp only [mapSet, if_pos hk, List.mem_cons] at h
      rcases h with h | h
      · exact Or.inr h
      · exact Or.inl (List.mem_cons_of_mem _ h)
    · simp only [mapSet, if_neg hk, List.mem_cons] at h
      rcases h with h | h
      · exact Or.inl (by simp [h])
      · rcases ih h with h1 | h1
        · exact Or.inl (List.mem_cons_of_mem _ h1)
        · exact Or.inr h1

theorem mapGet_mem {S : MessagesState} {k : String} {v : ParticipantData}
    (h : mapGet S k = some v) : (k, v) ∈ S := by
  induction S with
  | nil => simp [mapGet] at h
  | cons kv rest ih =>
    obtain ⟨ka, va⟩ := kv
    rw [mapGet_cons] at h
    by_cases hk : ka = k
    · rw [if_pos hk] at h
      obtain rfl : va = v := by injection h
      simp [hk]
    · rw [if_neg hk] at h
      exact List.mem_cons_of_mem _ (ih h)

theorem hasKey_mapSet_ne {S : MessagesState} {k u : String} {v : ParticipantData}
    (hS : hasKey S u = false) (hk : k ≠ u) : hasKey (mapSet S k v) u = false := by
  unfold hasKey at hS ⊢
  rw [mapGet_mapSet_ne S k u v (fun h => hk h.symm)]
  exact hS

/-! ### Helper lemmas about optimistic reconciliation -/

theorem reconcileOptimistic_none {m : DecryptedMessage} {l : List DecryptedMessage}
    (h : ∀ x ∈ l, matchesOptimistic m x = false) : reconcileOptimistic m l = none := by
  induction l with
  | nil => rfl
  | cons msg rest ih =>
    have hm := h msg (List.mem_cons_self _ _)
    simp only [reconcileOptimistic, hm, Bool.false_eq_true, if_false,
      ih (fun x hx => h x (List.mem_cons_of_mem _ hx)), Option.map_none']

theorem reconcileOptimistic_split {m o : DecryptedMessage}
    {pre post : List DecryptedMessage}
    (hpre : ∀ x ∈ pre, matchesOptimistic m x = false)
    (ho : matchesOptimistic m o = true) :
    reconcileOptimistic m (pre ++ o :: post) =
      some (pre ++
        { m with created_at := o.created_at, clientFirstSeen := o.clientFirstSeen } :: post) := by
  induction pre with
  | nil => simp [reconcileOptimistic, ho]
  | cons x xs ih =>
    have hx := hpre x (List.mem_cons_self _ _)
    have ihx := ih (fun y hy => hpre y (List.mem_cons_of_mem _ hy))
    simp only [List.cons_append, reconcileOptimistic, hx, Bool.false_eq_true, if_false]
    rw [show xs.append (o :: post) = xs ++ o :: post from rfl, ihx]
    rfl

theorem reconcileOptimistic_mem_id {m : DecryptedMessage}
    {l l' : List DecryptedMessage} (h : reconcileOptimistic m l = some l') :
    ∃ x ∈ l', x.id = m.id := by
  induction l generalizing l' with
  | nil => simp [reconcileOptimistic] at h
  | cons msg rest ih =>
    simp only [reconcileOptimistic] at h
    by_cases hm : matchesOptimistic m msg = true
    · rw [if_pos hm] at h
      obtain rfl : _ = l' := by injection h
      exact ⟨_, List.mem_cons_self _ _, rfl⟩
    · rw [if_neg hm] at h
      cases hrec : reconcileOptimistic m rest with
      | none => rw [hrec] at h; simp at h
      | some l'' =>
        rw [hrec] at h
        obtain rfl : msg :: l'' = l' := by injection h
        obtain ⟨x, hx, hid⟩ := ih hrec
        exact ⟨x, List.mem_cons_of_mem _ hx, hid⟩

theorem reconcileOptimistic_length {m : DecryptedMessage}
    {l l' : List DecryptedMessage} (h : reconcileOptimistic m l = some l') :
    l'.length = l.length := by
  induction l generalizing l' with
  | nil => simp [reconcileOptimistic] at h
  | cons msg rest ih =>
    simp only [reconcileOptimistic] at h
    by_cases hm : matchesOptimistic m msg = true
    · rw [if_pos hm] at h
      obtain rfl : _ = l' := by injection h
      simp
    · rw [if_neg hm] at h
      cases hrec : reconcileOptimistic m rest with
      | none => rw [hrec] at h; simp at h
      | some l'' =>
        rw [hrec] at h
        obtain rfl : msg :: l'' = l' := by injection h
        simp [ih hrec]

/-! ### Database helper lemmas -/

theorem dbGet_dbPut_self (db : DMDatabase) (k : String) (v : StoredValue) :
    dbGet (dbPut db k v) k = some v := by
  induction db with
  | nil => simp [dbPut, dbGet]
  | cons kv rest ih =>
    obtain ⟨ka, va⟩ := kv
    by_cases hk : ka = k
    · simp [dbPut, if_pos hk, dbGet]
    · simp [dbPut, if_neg hk, dbGet, hk, ih]

/-- C1: for every NIP-17 backfill or live subscription initiated with a known
(truthy) since timestamp `s`, the effective `since` placed in the kind-1059
relay filter equals `s - 172800` seconds: the first query of
`loadPastNIP17Messages` runs from `nip17InitialSince (some s) = s - 172800`,
and `startNIP17Subscription` subscribes from `s - 172800` regardless of
`lastSync.nip17` (which is only the fallback when no explicit timestamp is
given). -/
theorem c1_nip17_since_shift (s : Int) (h : s ≠ 0) :
    nip17InitialSince (some s) = s - TWO_DAYS_IN_SECONDS ∧
    (∀ query, loadPastNIP17Messages query (some s) =
      loadPastNIP17Loop query (SCAN_TOTAL_LIMIT + 1) [] 0 (s - TWO_DAYS_IN_SECONDS)) ∧
    (∀ lastSyncNip17 nowSec,
      startNIP17SubscriptionSince (some s) lastSyncNip17 nowSec = s - TWO_DAYS_IN_SECONDS) := by
  refine ⟨by simp [nip17InitialSince, h], ?_, ?_⟩
  · intro query
    simp [loadPastNIP17Messages, nip17InitialSince, h]
  · intro lastSyncNip17 nowSec
    simp [startNIP17SubscriptionSince, h]

/-- Witness for C1 at `s = 1700100000`: both effective since values are
`1699927200 = 1700100000 - 172800`. -/
theorem c1_nip17_since_shift_witness :
    nip17InitialSince (some 1700100000) = 1699927200 ∧
    startNIP17SubscriptionSince (some 1700100000) (some 1700100000) 1700200000 = 1699927200 := by
  have h := c1_nip17_since_shift 1700100000 (by decide)
  refine ⟨?_, ?_⟩
  · rw [h.1]; decide
  · rw [h.2.2 (some 1700100000) 1700200000]; decide

/-- C9: cache round-trip. Writing a document and reading it back with the
same signer returns it, whether a NIP-44 signer was present at write time
(encrypted envelope) or absent (plaintext path); reading an encrypted
envelope with no NIP-44 signer, or one whose decryption fails, returns
`none` without throwing; and a document written without a signer reads back
under any signer. `stringify`/`parse` model `JSON.stringify`/`JSON.parse`,
assumed to round-trip on the document at hand. -/
theorem c9_cache_roundtrip :
    (∀ (stringify : MessageStore → String) (parse : String → Except Unit MessageStore)
        (db : DMDatabase) (u : String) (doc : MessageStore) (signer : Option NIP44Signer),
        parse (stringify doc) = .ok doc →
        (∀ s, signer = some s → s.decrypt u (s.encrypt u (stringify doc)) = .ok (stringify doc)) →
        readMessagesFromDB parse (writeMessagesToDB stringify db u doc signer) u signer
          = some doc) ∧
    (∀ (stringify : MessageStore → String) (parse : String → Except Unit MessageStore)
        (db : DMDatabase) (u : String) (doc : MessageStore) (s : NIP44Signer),
        readMessagesFromDB parse (writeMessagesToDB stringify db u doc (some s)) u none
          = none) ∧
    (∀ (stringify : MessageStore → String) (parse : String → Except Unit MessageStore)
        (db : DMDatabase) (u : String) (doc : MessageStore) (s sr : NIP44Signer),
        sr.decrypt u (s.encrypt u (stringify doc)) = .error () →
        readMessagesFromDB parse (writeMessagesToDB stringify db u doc (some s)) u (some sr)
          = none) ∧
    (∀ (stringify : MessageStore → String) (parse : String → Except Unit MessageStore)
        (db : DMDatabase) (u : String) (doc : MessageStore) (s : NIP44Signer),
        readMessagesFromDB parse (writeMessagesToDB stringify db u doc none) u (some s)
          = some doc) := by
  refine ⟨?_, ?_, ?_, ?_⟩
  · intro stringify parse db u doc signer hparse hcrypt
    cases signer with
    | none =>
      simp [writeMessagesToDB, readMessagesFromDB, dbGet_dbPut_self]
    | some s =>
      have hdec := hcrypt s rfl
      simp [writeMessagesToDB, readMessagesFromDB, dbGet_dbPut_self, hdec, hparse]
  · intro stringify parse db u doc s
    simp [writeMessagesToDB, readMessagesFromDB, dbGet_dbPut_self]
  · intro stringify parse db u doc s sr hdec
    simp [writeMessagesToDB, readMessagesFromDB, dbGet_dbPut_self, hdec]
  · intro stringify parse db u doc s
    simp [writeMessagesToDB, readMessagesFromDB, dbGet_dbPut_self]

/-- Witness for C9 on a concrete document, database and signer (identity
encryption, so both round-trip hypotheses hold definitionally; the failing
reader always throws). -/
theorem c9_cache_roundtrip_witness :
    readMessagesFromDB (fun _ => .ok ⟨[], none, none⟩)
      (writeMessagesToDB (fun _ => "J") [] "u" ⟨[], none, none⟩
        (some ⟨fun _ t => t, fun _ t => .ok t⟩)) "u"
      (some ⟨fun _ t => t, fun _ t => .ok t⟩) = some ⟨[], none, none⟩ ∧
    readMessagesFromDB (fun _ => .ok ⟨[], none, none⟩)
      (writeMessagesToDB (fun _ => "J") [] "u" ⟨[], none, none⟩
        (some ⟨fun _ t => t, fun _ t => .ok t⟩)) "u"
      (some ⟨fun _ t => t, fun _ _ => .error ()⟩) = none := by
  refine ⟨?_, ?_⟩
  · exact c9_cache_roundtrip.1 (fun _ => "J") (fun _ => .ok ⟨[], none, none⟩) [] "u"
      ⟨[], none, none⟩ (some ⟨fun _ t => t, fun _ t => .ok t⟩) rfl
      (fun s hs => by cases hs; rfl)
  · exact c9_cache_roundtrip.2.2.1 (fun _ => "J") (fun _ => .ok ⟨[], none, none⟩) [] "u"
      ⟨[], none, none⟩ ⟨fun _ t => t, fun _ t => .ok t⟩ ⟨fun _ t => t, fun _ _ => .error ()⟩ rfl

/-! ### C10 scenario: optimistic send with an attachment -/

/-- A prevalidated upload record used in the C10 scenario. -/
def c10attachment : FileAttachment :=
  { url := "https://f/x.png", mimeType := "", size := 0, name := "", tags := [] }

/-- State after `sendMessage` inserted the optimistic placeholder for
recipient "r" (user text "hi", no attachment URLs in `decryptedContent`). -/
def c10afterSend : MessagesState :=
  sendMessageOptimistic [] "u" "r" "hi" .nip04 "optimistic-1" 1000 1000000

/-- The kind-4 event actually published by `sendNIP4Message` for the same
send (ciphertext of `prepareMessageContent "hi" [c10attachment]`). -/
def c10realEvent : NEvent :=
  sendNIP4EventTemplate "u" "r" "hi" [c10attachment]
    (fun _ s => "enc:" ++ s) "X" 1002 "sg"

/-- NIP-04 decryption oracle undoing the `"enc:" ++ ·` encryption above. -/
def c10decrypt : Option (String → String → Except Unit String) :=
  some (fun _ c => .ok (c.drop 4))

/-- Final state after the subscription echoes the published event back. -/
def c10final : MessagesState :=
  processIncomingNIP4Message c10afterSend "u" c10decrypt c10realEvent 1002005

/-- C10: for a send with an attachment, the optimistic message's plaintext is
the raw user text while the published message's plaintext has the attachment
URL appended by `prepareMessageContent`; the exact-`decryptedContent`
reconciliation in `addMessageToState` therefore misses (even though author
and the ±30 s window match), and the bucket ends up with both the
still-`isSending` optimistic message and the real message. -/
theorem c10_attachment_breaks_reconciliation :
    prepareMessageContent "hi" [c10attachment] = "hi\n\nhttps://f/x.png" ∧
    prepareMessageContent "hi" [c10attachment] ≠ "hi" ∧
    ((1000 : Int) - 1002).natAbs ≤ 30 ∧
    (mapGet c10final "r").map
        (fun p => p.messages.map (fun m => (m.id, m.isSending, m.decryptedContent)))
      = some [("optimistic-1", true, some "hi"),
              ("X", false, some "hi\n\nhttps://f/x.png")] := by
  refine ⟨by decide, by decide, by decide, by decide⟩

/-! ### C5: the user's own pubkey as a conversation key -/

theorem hasKey_addMessageToState {S : MessagesState} {m : DecryptedMessage}
    {partner : String} {proto : MessageProtocol} {u : String}
    (hS : hasKey S u = false) (hp : partner ≠ u) :
    hasKey (addMessageToState S m partner proto) u = false := by
  unfold addMessageToState
  cases hget : mapGet S partner with
  | none => exact hasKey_mapSet_ne hS hp
  | some existing =>
    by_cases hdup : existing.messages.any (fun msg => msg.id = m.id) = true
    · simp only [hdup, if_true]
      exact hS
    · simp only [hdup, if_false]
      exact hasKey_mapSet_ne hS hp

/-- C5 counterexample: `sendMessage` (modelled by its optimistic state
insertion `sendMessageOptimistic`) with `recipientPubkey` equal to the user's
own pubkey makes the user's own pubkey a key of the ConversationMap, refuting
the claim that it never appears under any sequence of engine operations. -/
theorem c5_counterexample :
    hasKey (sendMessageOptimistic [] "u" "u" "hi" .nip04 "optimistic-1" 1000 1000000) "u"
      = true := by decide

/-- C5 (amended): NIP-04 ingestion never inserts the user's own pubkey (the
partner guard rejects self and empty partners), and `addMessageToState` —
hence `sendMessage`'s optimistic insertion and NIP-17 ingestion — preserves
the invariant whenever the targeted partner key differs from the user's
pubkey; `sendMessage` guarantees this only when the caller passes a recipient
other than the user. -/
theorem c5_amended :
    (∀ (S : MessagesState) (u : String)
        (dec : Option (String → String → Except Unit String)) (e : NEvent) (nowMs : Int),
        hasKey S u = false →
        hasKey (processIncomingNIP4Message S u dec e nowMs) u = false) ∧
    (∀ (S : MessagesState) (m : DecryptedMessage) (partner : String)
        (proto : MessageProtocol) (u : String),
        hasKey S u = false → partner ≠ u →
        hasKey (addMessageToState S m partner proto) u = false) ∧
    (∀ (S : MessagesState) (u r content oid : String) (proto : MessageProtocol)
        (ns nm : Int),
        hasKey S u = false → r ≠ u →
        hasKey (sendMessageOptimistic S u r content proto oid ns nm) u = false) := by
  refine ⟨?_, ?_, ?_⟩
  · intro S u dec e nowMs hS
    unfold processIncomingNIP4Message
    split
    · exact hS
    · split
      · exact hS
      · split
        · exact hS
        · rename_i hother
          exact hasKey_addMessageToState hS (fun hh => hother (Or.inr hh))
  · intro S m partner proto u hS hp
    exact hasKey_addMessageToState hS hp
  · intro S u r content oid proto ns nm hS hr
    exact hasKey_addMessageToState hS hr

/-- Witness for C5 (amended) on concrete inputs: an incoming kind-4 event
from "x", and a send to recipient "r", leave "u" out of the map. -/
theorem c5_amended_witness :
    hasKey (processIncomingNIP4Message [] "u" none
      { id := "1", pubkey := "x", kind := 4, created_at := 1,
        tags := [["p", "u"]], content := "c", sig := "s" } 0) "u" = false ∧
    hasKey (sendMessageOptimistic [] "u" "r" "hi" .nip04 "optimistic-2" 1000 1000000) "u"
      = false := by
  refine ⟨?_, ?_⟩
  · exact c5_amended.1 [] "u" none
      { id := "1", pubkey := "x", kind := 4, created_at := 1,
        tags := [["p", "u"]], content := "c", sig := "s" } 0 (by decide)
  · exact c5_amended.2.2 [] "u" "r" "hi" "optimistic-2" .nip04 1000 1000000
      (by decide) (by decide)

/-! ### C6: plaintext-at-rest in the cache document -/

/-- A message whose decryption failed: `error` set, `decryptedContent` empty,
`content` still the raw ciphertext. -/
def c6failedMsg : DecryptedMessage :=
  { id := "1", pubkey := "b", kind := 4, created_at := 10, tags := [["p", "a"]],
    content := "cipher", sig := "s", decryptedContent := some "",
    error := some "Decryption failed" }

/-- A conversation map holding only the failed-decryption message. -/
def c6state : MessagesState :=
  [("b", { messages := [c6failedMsg], lastActivity := 10, lastMessage := some c6failedMsg,
           hasNIP4 := true, hasNIP17 := false })]

/-- C6 counterexample: for a message whose decryption failed (`error` set,
`decryptedContent = ""`), `writeAllMessagesToStore` persists the raw
encrypted `content`, not the (empty) decrypted content — the falsy-string
fallback `msg.decryptedContent || msg.content` picks the ciphertext, so the
stored document does not carry plaintext for such messages. -/
theorem c6_counterexample :
    ((writeAllMessagesToStore c6state (some 5) none).participants.map
        (fun kv => kv.2.messages.map (·.content))) = [["cipher"]] ∧
    c6failedMsg.decryptedContent = some "" ∧
    c6failedMsg.error.isSome = true ∧
    ("cipher" : String) ≠ "" := by decide

/-- C6 (amended): `writeAllMessagesToStore` stores every message of every
bucket through `storeMessage`, whose `content` is the decrypted plaintext
whenever `decryptedContent` is non-empty, and falls back to the message's raw
`content` field (the ciphertext for failed decryptions) when
`decryptedContent` is empty or absent. -/
theorem c6_amended :
    (∀ (msg : DecryptedMessage) (s : String),
        msg.decryptedContent = some s → s ≠ "" → (storeMessage msg).content = s) ∧
    (∀ msg : DecryptedMessage,
        msg.decryptedContent = none ∨ msg.decryptedContent = some "" →
        (storeMessage msg).content = msg.content) ∧
    (∀ (S : MessagesState) (ls4 ls17 : Option Int),
        (writeAllMessagesToStore S ls4 ls17).participants =
          S.map (fun kv => (kv.1,
            { messages := kv.2.messages.map storeMessage,
              lastActivity := kv.2.lastActivity,
              hasNIP4 := kv.2.hasNIP4,
              hasNIP17 := kv.2.hasNIP17 }))) := by
  refine ⟨?_, ?_, fun S ls4 ls17 => rfl⟩
  · intro msg s h hs
    simp [storeMessage, h, hs]
  · intro msg h
    rcases h with h | h <;> simp [storeMessage, h]

/-- A successfully decrypted message, for the C6 witness. -/
def c6okMsg : DecryptedMessage :=
  { id := "2", pubkey := "b", kind := 4, created_at := 11, tags := [],
    content := "cipher2", sig := "s", decryptedContent := some "hello" }

/-- Witness for C6 (amended): a successfully decrypted message stores its
plaintext, and the failed message of the counterexample state stores its raw
content. -/
theorem c6_amended_witness :
    (storeMessage c6okMsg).content = "hello" ∧
    (storeMessage c6failedMsg).content = c6failedMsg.content := by
  refine ⟨?_, ?_⟩
  · exact c6_amended.1 c6okMsg "hello" rfl (by decide)
  · exact c6_amended.2.1 c6failedMsg (Or.inr rfl)

/-! ### Case equations for `addMessageToState` -/

theorem addMessageToState_dup {S : MessagesState} {partner : String}
    {proto : MessageProtocol} {existing : ParticipantData} {m : DecryptedMessage}
    (hget : mapGet S partner = some existing)
    (hdup : existing.messages.any (fun msg => msg.id = m.id) = true) :
    addMessageToState S m partner proto = S := by
  unfold addMessageToState
  rw [hget]
  simp [hdup]

theorem addMessageToState_reconcile {S : MessagesState} {partner : String}
    {proto : MessageProtocol} {existing : ParticipantData} {m : DecryptedMessage}
    {replaced : List DecryptedMessage}
    (hget : mapGet S partner = some existing)
    (hdup : existing.messages.any (fun msg => msg.id = m.id) = false)
    (hrec : reconcileOptimistic m existing.messages = some replaced) :
    addMessageToState S m partner proto = mapSet S partner
      { existing with
          messages := sortByCreated replaced,
          lastActivity := ((sortByCreated replaced).getLastD m).created_at,
          lastMessage := some ((sortByCreated replaced).getLastD m),
          hasNIP4 := if proto = .nip04 then true else existing.hasNIP4,
          hasNIP17 := if proto = .nip17 then true else existing.hasNIP17 } := by
  unfold addMessageToState
  rw [hget]
  simp [hdup, hrec]

theorem addMessageToState_append {S : MessagesState} {partner : String}
    {proto : MessageProtocol} {existing : ParticipantData} {m : DecryptedMessage}
    (hget : mapGet S partner = some existing)
    (hdup : existing.messages.any (fun msg => msg.id = m.id) = false)
    (hrec : reconcileOptimistic m existing.messages = none) :
    addMessageToState S m partner proto = mapSet S partner
      { existing with
          messages := sortByCreated (existing.messages ++ [m]),
          lastActivity := ((sortByCreated (existing.messages ++ [m])).getLastD m).created_at,
          lastMessage := some ((sortByCreated (existing.messages ++ [m])).getLastD m),
          hasNIP4 := if proto = .nip04 then true else existing.hasNIP4,
          hasNIP17 := if proto = .nip17 then true else existing.hasNIP17 } := by
  unfold addMessageToState
  rw [hget]
  simp [hdup, hrec]

theorem addMessageToState_new {S : MessagesState} {partner : String}
    {proto : MessageProtocol} {m : DecryptedMessage}
    (hget : mapGet S partner = none) :
    addMessageToState S m partner proto = mapSet S partner
      { messages := [m], lastActivity := m.created_at, lastMessage := some m,
        hasNIP4 := proto = .nip04, hasNIP17 := proto = .nip17 } := by
  unfold addMessageToState
  rw [hget]

/-- C2: when a bucket holds a pending optimistic message (`isSending`) and a
real message arrives with the same author, equal `decryptedContent` and a
`created_at` within 30 s (and its event id is not already present), the first
such optimistic message is replaced in place by
`{ m with created_at := optimistic's, clientFirstSeen := optimistic's }` —
i.e. the result carries the real event's id, kind, sig, tags and plaintext
but the optimistic timestamps — and the bucket is then re-sorted, its size
unchanged; a real message matching no optimistic twin (wrong plaintext,
author, or window) is appended instead. -/
theorem c2_optimistic_reconciliation :
    (∀ (S : MessagesState) (partner : String) (proto : MessageProtocol)
        (existing : ParticipantData) (m o : DecryptedMessage)
        (pre post : List DecryptedMessage),
        mapGet S partner = some existing →
        existing.messages = pre ++ o :: post →
        (∀ x ∈ pre, matchesOptimistic m x = false) →
        matchesOptimistic m o = true →
        existing.messages.any (fun msg => msg.id = m.id) = false →
        (mapGet (addMessageToState S m partner proto) partner).map (fun b => b.messages)
            = some (sortByCreated (pre ++
                { m with created_at := o.created_at,
                         clientFirstSeen := o.clientFirstSeen } :: post)) ∧
        ({ m with created_at := o.created_at, clientFirstSeen := o.clientFirstSeen }
            : DecryptedMessage) ∈
          sortByCreated (pre ++
            { m with created_at := o.created_at, clientFirstSeen := o.clientFirstSeen } :: post) ∧
        (sortByCreated (pre ++
            { m with created_at := o.created_at, clientFirstSeen := o.clientFirstSeen } :: post)).length
          = existing.messages.length) ∧
    (∀ (S : MessagesState) (partner : String) (proto : MessageProtocol)
        (existing : ParticipantData) (m : DecryptedMessage),
        mapGet S partner = some existing →
        (∀ x ∈ existing.messages, matchesOptimistic m x = false) →
        existing.messages.any (fun msg => msg.id = m.id) = false →
        (mapGet (addMessageToState S m partner proto) partner).map (fun b => b.messages)
            = some (sortByCreated (existing.messages ++ [m]))) := by
  constructor
  · intro S partner proto existing m o pre post hget hmsgs hpre ho hdup
    have hrec : reconcileOptimistic m existing.messages =
        some (pre ++
          { m with created_at := o.created_at, clientFirstSeen := o.clientFirstSeen } :: post) := by
      rw [hmsgs]
      exact reconcileOptimistic_split hpre ho
    refine ⟨?_, ?_, ?_⟩
    · rw [addMessageToState_reconcile hget hdup hrec, mapGet_mapSet_self]
      rfl
    · exact mem_sortByCreated.2 (List.mem_append_right _ (List.mem_cons_self _ _))
    · rw [length_sortByCreated, hmsgs]
      simp
  · intro S partner proto existing m hget hall hdup
    have hrec : reconcileOptimistic m existing.messages = none :=
      reconcileOptimistic_none hall
    rw [addMessageToState_append hget hdup hrec, mapGet_mapSet_self]
    rfl

/-- The pending optimistic message of the C2 witness scenario. -/
def c2opt : DecryptedMessage :=
  { id := "optimistic-1", pubkey := "u", kind := 4, created_at := 1000, tags := [["p", "r"]],
    content := "", sig := "", decryptedContent := some "hi", isSending := true,
    clientFirstSeen := some 999000 }

/-- The confirmed real event of the C2 witness scenario (5 s later). -/
def c2real : DecryptedMessage :=
  { id := "X", pubkey := "u", kind := 4, created_at := 1005, tags := [["p", "r"]],
    content := "ciphertext", sig := "sg", decryptedContent := some "hi" }

/-- A second real message matching no optimistic twin (different plaintext). -/
def c2other : DecryptedMessage :=
  { id := "Y", pubkey := "u", kind := 4, created_at := 1010, tags := [["p", "r"]],
    content := "c2", sig := "sg2", decryptedContent := some "bye" }

/-- Conversation map with one bucket holding only the optimistic message. -/
def c2state : MessagesState :=
  [("r", { messages := [c2opt], lastActivity := 1000, lastMessage := some c2opt,
           hasNIP4 := true, hasNIP17 := false })]

/-- Witness for C2: in the concrete scenario the echoed real event replaces
the optimistic twin (real id, optimistic `created_at`/`clientFirstSeen`),
while the non-matching message is appended. -/
theorem c2_optimistic_reconciliation_witness :
    (mapGet (addMessageToState c2state c2real "r" .nip04) "r").map (fun b => b.messages)
        = some (sortByCreated ([] ++
            { c2real with created_at := c2opt.created_at,
                          clientFirstSeen := c2opt.clientFirstSeen } :: [])) ∧
    (mapGet (addMessageToState c2state c2other "r" .nip04) "r").map (fun b => b.messages)
        = some (sortByCreated ([c2opt] ++ [c2other])) := by
  constructor
  · exact (c2_optimistic_reconciliation.1 c2state "r" .nip04
      _ c2real c2opt [] [] rfl rfl (by intro x hx; cases hx) (by decide) (by decide)).1
  · exact c2_optimistic_reconciliation.2 c2state "r" .nip04
      _ c2other rfl (by decide) (by decide)

/-! ### C3: ingestion idempotency -/

theorem addMessageToState_id_mem (S : MessagesState) (m : DecryptedMessage)
    (partner : String) (proto : MessageProtocol) :
    ∃ b, mapGet (addMessageToState S m partner proto) partner = some b ∧
      b.messages.any (fun msg => msg.id = m.id) = true := by
  cases hget : mapGet S partner with
  | none =>
    refine ⟨{ messages := [m], lastActivity := m.created_at, lastMessage := some m,
              hasNIP4 := proto = .nip04, hasNIP17 := proto = .nip17 }, ?_, ?_⟩
    · rw [addMessageToState_new hget, mapGet_mapSet_self]
    · simp
  | some existing =>
    by_cases hdup : existing.messages.any (fun msg => msg.id = m.id) = true
    · exact ⟨existing, by rw [addMessageToState_dup hget hdup]; exact hget, hdup⟩
    · have hdupf : existing.messages.any (fun msg => msg.id = m.id) = false := by
        revert hdup
        cases existing.messages.any (fun msg => msg.id = m.id) <;> simp
      cases hrec : reconcileOptimistic m existing.messages with
      | some replaced =>
        refine ⟨{ existing with
            messages := sortByCreated replaced,
            lastActivity := ((sortByCreated replaced).getLastD m).created_at,
            lastMessage := some ((sortByCreated replaced).getLastD m),
            hasNIP4 := if proto = .nip04 then true else existing.hasNIP4,
            hasNIP17 := if proto = .nip17 then true else existing.hasNIP17 }, ?_, ?_⟩
        · rw [addMessageToState_reconcile hget hdupf hrec, mapGet_mapSet_self]
        · obtain ⟨x, hx, hid⟩ := reconcileOptimistic_mem_id hrec
          exact List.any_eq_true.2 ⟨x, mem_sortByCreated.2 hx, by simp [hid]⟩
      | none =>
        refine ⟨{ existing with
            messages := sortByCreated (existing.messages ++ [m]),
            lastActivity := ((sortByCreated (existing.messages ++ [m])).getLastD m).created_at,
            lastMessage := some ((sortByCreated (existing.messages ++ [m])).getLastD m),
            hasNIP4 := if proto = .nip04 then true else existing.hasNIP4,
            hasNIP17 := if proto = .nip17 then true else existing.hasNIP17 }, ?_, ?_⟩
        · rw [addMessageToState_append hget hdupf hrec, mapGet_mapSet_self]
        · exact List.any_eq_true.2
            ⟨m, mem_sortByCreated.2 (List.mem_append_right _ (List.mem_cons_self _ _)), by simp⟩

/-- The single-message delta map the backfill paths hand to
`mergeMessagesIntoState`: a fresh `createEmptyParticipant`, the message pushed
into it, the protocol flag set, then `sortAndUpdateParticipantState` — exactly
the construction in `queryRelaysForMessagesSince` for a one-element batch. -/
def singletonMergeDelta (m : DecryptedMessage) (partner : String)
    (protocol : MessageProtocol) : MessagesState :=
  [(partner, sortAndUpdateParticipantState
      { createEmptyParticipant with
          messages := [m],
          hasNIP4 := protocol = .nip04,
          hasNIP17 := protocol = .nip17 })]

theorem singletonMergeDelta_eq (m : DecryptedMessage) (partner : String)
    (protocol : MessageProtocol) :
    singletonMergeDelta m partner protocol =
      [(partner, { messages := [m], lastActivity := m.created_at, lastMessage := some m,
                   hasNIP4 := protocol = .nip04, hasNIP17 := protocol = .nip17 })] := rfl

theorem mergeMessagesIntoState_singleton (S : MessagesState) (p : String)
    (v : ParticipantData) :
    mergeMessagesIntoState S [(p, v)] =
      match mapGet S p with
      | some existing => mapSet S p (mergeParticipant existing v)
      | none => mapSet S p v := rfl

theorem mergeParticipant_lastMessage (e v : ParticipantData) :
    (mergeParticipant e v).lastMessage = (mergeParticipant e v).messages.getLast? := rfl

theorem mergeParticipant_lastActivity (e v : ParticipantData) (lm : DecryptedMessage)
    (h : (mergeParticipant e v).messages.getLast? = some lm) :
    (mergeParticipant e v).lastActivity = lm.created_at := by
  unfold mergeParticipant at h ⊢
  simp only at h ⊢
  rw [h]

/-- Merging a `[m]`-delta into a bucket that already holds `m.id`, is
sort-stable, and has coherent derived fields, is a no-op. -/
theorem mergeParticipant_already {q b : ParticipantData} {m : DecryptedMessage}
    (hb : b.messages = [m])
    (hmem : ∃ x ∈ q.messages, x.id = m.id)
    (hsort : sortByCreated q.messages = q.messages)
    (hlastm : q.lastMessage = q.messages.getLast?)
    (hlasta : ∀ lm, q.messages.getLast? = some lm → q.lastActivity = lm.created_at)
    (h4 : (q.hasNIP4 || b.hasNIP4) = q.hasNIP4)
    (h17 : (q.hasNIP17 || b.hasNIP17) = q.hasNIP17) :
    mergeParticipant q b = q := by
  obtain ⟨x, hx, hid⟩ := hmem
  have hcontains : (q.messages.map (fun msg => msg.id)).contains m.id = true :=
    List.elem_iff.2 (List.mem_map.2 ⟨x, hx, hid⟩)
  unfold mergeParticipant
  rw [hb]
  simp only [List.filter, hcontains, Bool.not_true, List.append_nil, hsort]
  cases q with
  | mk qm qla qlm q4 q17 =>
    simp only at hlastm hlasta h4 h17 ⊢
    cases hlast : qm.getLast? with
    | none => simp_all
    | some lm => simp_all [hlasta lm hlast]

/-- C3: ingestion is idempotent. Delivering an event with the same id a
second time through `addMessageToState` is a no-op (the event-id dedup check
fires even when other fields, such as `clientFirstSeen`, were re-stamped
differently), and re-merging a single-message backfill delta whose message
carries the same id through `mergeMessagesIntoState` leaves the
ConversationMap unchanged; duplicates are filtered by event id. -/
theorem c3_ingestion_idempotent :
    (∀ (S : MessagesState) (m m2 : DecryptedMessage) (partner : String)
        (proto : MessageProtocol), m2.id = m.id →
      addMessageToState (addMessageToState S m partner proto) m2 partner proto
        = addMessageToState S m partner proto) ∧
    (∀ (S : MessagesState) (m m2 : DecryptedMessage) (partner : String)
        (proto : MessageProtocol), m2.id = m.id →
      mergeMessagesIntoState
          (mergeMessagesIntoState S (singletonMergeDelta m partner proto))
          (singletonMergeDelta m2 partner proto)
        = mergeMessagesIntoState S (singletonMergeDelta m partner proto)) := by
  constructor
  · intro S m m2 partner proto hid
    obtain ⟨b, hget, hdup⟩ := addMessageToState_id_mem S m partner proto
    have hdup2 : b.messages.any (fun msg => msg.id = m2.id) = true := by
      rw [hid]
      exact hdup
    exact addMessageToState_dup hget hdup2
  · intro S m m2 partner proto hid
    rw [singletonMergeDelta_eq, singletonMergeDelta_eq]
    set b : ParticipantData :=
      { messages := [m], lastActivity := m.created_at, lastMessage := some m,
        hasNIP4 := proto = .nip04, hasNIP17 := proto = .nip17 } with hbdef
    set b2 : ParticipantData :=
      { messages := [m2], lastActivity := m2.created_at, lastMessage := some m2,
        hasNIP4 := proto = .nip04, hasNIP17 := proto = .nip17 } with hb2def
    have hbmsgs : b2.messages = [m2] := rfl
    have hbmsgs1 : b.messages = [m] := rfl
    cases hget : mapGet S partner with
    | none =>
      have hF : mergeMessagesIntoState S [(partner, b)] = mapSet S partner b := by
        rw [mergeMessagesIntoState_singleton, hget]
      rw [hF]
      have hself : mergeParticipant b b2 = b := by
        apply mergeParticipant_already hbmsgs
        · exact ⟨m, by simp [hbdef], hid.symm⟩
        · simp [hbdef, sortByCreated, insertByTs]
        · rfl
        · intro lm hlm
          simp only [hbdef] at hlm ⊢
          cases hlm
          rfl
        · exact Bool.or_self _
        · exact Bool.or_self _
      have hstep : mergeMessagesIntoState (mapSet S partner b) [(partner, b2)]
          = mapSet (mapSet S partner b) partner (mergeParticipant b b2) := by
        rw [mergeMessagesIntoState_singleton, mapGet_mapSet_self]
      rw [hstep, hself]
      exact mapSet_self (mapGet_mapSet_self S partner b)
    | some e =>
      have hF : mergeMessagesIntoState S [(partner, b)]
          = mapSet S partner (mergeParticipant e b) := by
        rw [mergeMessagesIntoState_singleton, hget]
      rw [hF]
      set q := mergeParticipant e b with hqdef
      have hq : mergeParticipant q b2 = q := by
        apply mergeParticipant_already hbmsgs
        · by_cases hc : (e.messages.map (fun msg => msg.id)).contains m.id = true
          · obtain ⟨y, hy, hyid⟩ := List.mem_map.1 (List.elem_iff.1 hc)
            refine ⟨y, ?_, by rw [hyid, hid]⟩
            have hy2 : y ∈ e.messages ++
                (b.messages.filter
                  (fun msg => ! (e.messages.map (fun msg => msg.id)).contains msg.id)) :=
              List.mem_append_left _ hy
            show y ∈ q.messages
            rw [hqdef]
            exact mem_sortByCreated.2 hy2
          · have hcf : (e.messages.map (fun msg => msg.id)).contains m.id = false := by
              revert hc
              cases (e.messages.map (fun msg => msg.id)).contains m.id <;> simp
            refine ⟨m, ?_, hid.symm⟩
            have hfil : b.messages.filter
                (fun msg => ! (e.messages.map (fun msg => msg.id)).contains msg.id) = [m] := by
              rw [hbmsgs1]
              simp only [List.filter_cons, List.filter_nil, hcf, Bool.not_false, if_true]
            have hm2 : m ∈ e.messages ++
                (b.messages.filter
                  (fun msg => ! (e.messages.map (fun msg => msg.id)).contains msg.id)) := by
              rw [hfil]
              exact List.mem_append_right _ (List.mem_cons_self _ _)
            show m ∈ q.messages
            rw [hqdef]
            exact mem_sortByCreated.2 hm2
        · show sortByCreated q.messages = q.messages
          rw [hqdef]
          show sortByCreated (mergeParticipant e b).messages = (mergeParticipant e b).messages
          unfold mergeParticipant
          simp only []
          exact sortByCreated_idem _
        · exact mergeParticipant_lastMessage e b
        · exact fun lm hlm => mergeParticipant_lastActivity e b lm hlm
        · show ((e.hasNIP4 || b.hasNIP4) || b2.hasNIP4) = (e.hasNIP4 || b.hasNIP4)
          have hsame : b2.hasNIP4 = b.hasNIP4 := rfl
          rw [hsame, Bool.or_assoc, Bool.or_self]
        · show ((e.hasNIP17 || b.hasNIP17) || b2.hasNIP17) = (e.hasNIP17 || b.hasNIP17)
          have hsame : b2.hasNIP17 = b.hasNIP17 := rfl
          rw [hsame, Bool.or_assoc, Bool.or_self]
      have hstep : mergeMessagesIntoState (mapSet S partner q) [(partner, b2)]
          = mapSet (mapSet S partner q) partner (mergeParticipant q b2) := by
        rw [mergeMessagesIntoState_singleton, mapGet_mapSet_self]
      rw [hstep, hq]
      exact mapSet_self (mapGet_mapSet_self S partner q)

/-- A plain decrypted message reused by several witnesses. -/
def sampleMsg : DecryptedMessage :=
  { id := "W", pubkey := "u", kind := 4, created_at := 700, tags := [["p", "r"]],
    content := "cw", sig := "sw", decryptedContent := some "hey" }

/-- Witness for C3: re-delivering the same event id (with a re-stamped
`clientFirstSeen`) through both reducer entry points is a no-op on a concrete
state. -/
theorem c3_ingestion_idempotent_witness :
    addMessageToState (addMessageToState [] sampleMsg "r" .nip04)
        { sampleMsg with clientFirstSeen := some 5 } "r" .nip04
      = addMessageToState [] sampleMsg "r" .nip04 ∧
    mergeMessagesIntoState
        (mergeMessagesIntoState [] (singletonMergeDelta sampleMsg "r" .nip04))
        (singletonMergeDelta { sampleMsg with clientFirstSeen := some 5 } "r" .nip04)
      = mergeMessagesIntoState [] (singletonMergeDelta sampleMsg "r" .nip04) :=
  ⟨c3_ingestion_idempotent.1 [] sampleMsg
      { sampleMsg with clientFirstSeen := some 5 } "r" .nip04 rfl,
   c3_ingestion_idempotent.2 [] sampleMsg
      { sampleMsg with clientFirstSeen := some 5 } "r" .nip04 rfl⟩

/-! ### C4: reducer invariants -/

/-- Invariant of a single Participant bucket: messages sorted non-decreasing
by `created_at`; when the bucket is non-empty, `lastActivity` is the last
message's timestamp and `lastMessage` is that message. -/
def bucketInvB (p : ParticipantData) : Bool :=
  sortedByTs p.messages &&
    (p.messages.getLast?).all
      (fun lm => p.lastActivity = lm.created_at && p.lastMessage = some lm)

/-- The bucket invariant over every entry of the ConversationMap. -/
def stateInvB (S : MessagesState) : Bool :=
  S.all (fun kv => bucketInvB kv.2)

theorem stateInvB_mem {S : MessagesState} {kv : String × ParticipantData}
    (h : stateInvB S = true) (hm : kv ∈ S) : bucketInvB kv.2 = true :=
  List.all_eq_true.1 h kv hm

theorem stateInvB_mapSet {S : MessagesState} {k : String} {v : ParticipantData}
    (hS : stateInvB S = true) (hv : bucketInvB v = true) :
    stateInvB (mapSet S k v) = true := by
  apply List.all_eq_true.2
  intro kv hkv
  rcases mem_mapSet hkv with h | h
  · exact List.all_eq_true.1 hS kv h
  · rw [h]
    exact hv

theorem bucketInvB_mk (msgs : List DecryptedMessage) (d : DecryptedMessage)
    (h4 h17 : Bool) (hs : sortedByTs msgs = true) :
    bucketInvB { messages := msgs, lastActivity := (msgs.getLastD d).created_at,
                 lastMessage := some (msgs.getLastD d),
                 hasNIP4 := h4, hasNIP17 := h17 } = true := by
  unfold bucketInvB
  cases hlast : msgs.getLast? with
  | none => simp [hs, hlast]
  | some lm =>
    have hD : msgs.getLastD d = lm := by
      rw [List.getLastD_eq_getLast?, hlast]
      rfl
    simp [hs, hlast, hD]

theorem bucketInvB_mergeParticipant (e v : ParticipantData) :
    bucketInvB (mergeParticipant e v) = true := by
  have hmsg : (mergeParticipant e v).messages =
      sortByCreated (e.messages ++ v.messages.filter
        (fun msg => ! (e.messages.map (fun msg => msg.id)).contains msg.id)) := rfl
  unfold bucketInvB
  rw [Bool.and_eq_true]
  refine ⟨by rw [hmsg]; exact sortedByTs_sortByCreated _, ?_⟩
  cases hlast : (mergeParticipant e v).messages.getLast? with
  | none => rfl
  | some lm =>
    have h1 := mergeParticipant_lastActivity e v lm hlast
    have h2 : (mergeParticipant e v).lastMessage = some lm := by
      rw [mergeParticipant_lastMessage, hlast]
    simp [Option.all, h1, h2]

theorem mergeMessagesIntoState_cons (S : MessagesState) (k : String)
    (v : ParticipantData) (rest : MessagesState) :
    mergeMessagesIntoState S ((k, v) :: rest) =
      mergeMessagesIntoState
        (match mapGet S k with
         | some existing => mapSet S k (mergeParticipant existing v)
         | none => mapSet S k v)
        rest := rfl

theorem stateInvB_merge (N : MessagesState) :
    ∀ S : MessagesState, stateInvB N = true → stateInvB S = true →
      stateInvB (mergeMessagesIntoState S N) = true := by
  induction N with
  | nil => intro S _ hS; exact hS
  | cons kv rest ih =>
    intro S hN hS
    obtain ⟨k, v⟩ := kv
    have hv : bucketInvB v = true := stateInvB_mem hN (List.mem_cons_self _ _)
    have hrest : stateInvB rest = true := by
      apply List.all_eq_true.2
      intro kv2 hkv2
      exact List.all_eq_true.1 hN kv2 (List.mem_cons_of_mem _ hkv2)
    rw [mergeMessagesIntoState_cons]
    apply ih _ hrest
    cases hget : mapGet S k with
    | some e => exact stateInvB_mapSet hS (bucketInvB_mergeParticipant e v)
    | none => exact stateInvB_mapSet hS hv

theorem bucketInvB_sortAndUpdate (p : ParticipantData) :
    bucketInvB (sortAndUpdateParticipantState p) = true := by
  unfold sortAndUpdateParticipantState
  cases hlast : (sortByCreated p.messages).getLast? with
  | some last => simp [bucketInvB, sortedByTs_sortByCreated, hlast]
  | none => simp [bucketInvB, sortedByTs_sortByCreated, hlast]

/-- C4: after every reducer operation — `sortAndUpdateParticipantState`
(also applied bucket-wise by `sortAllParticipants` when backfill deltas are
built), `addMessageToState` and `mergeMessagesIntoState` — every non-empty
bucket has its messages sorted non-decreasing by `created_at`,
`lastActivity` equal to the last message's `created_at`, and `lastMessage`
equal to that last message. -/
theorem c4_reducer_invariants :
    (∀ p : ParticipantData, bucketInvB (sortAndUpdateParticipantState p) = true) ∧
    (∀ (S : MessagesState) (m : DecryptedMessage) (partner : String)
        (proto : MessageProtocol),
      stateInvB S = true → stateInvB (addMessageToState S m partner proto) = true) ∧
    (∀ S N : MessagesState,
      stateInvB S = true → stateInvB N = true →
      stateInvB (mergeMessagesIntoState S N) = true) ∧
    (∀ D : MessagesState, stateInvB (sortAllParticipants D) = true) := by
  refine ⟨bucketInvB_sortAndUpdate, ?_, fun S N hS hN => stateInvB_merge N S hN hS, ?_⟩
  swap
  · intro D
    apply List.all_eq_true.2
    intro kv hkv
    obtain ⟨kv0, hkv0, rfl⟩ := List.mem_map.1 hkv
    exact bucketInvB_sortAndUpdate kv0.2
  · intro S m partner proto hS
    cases hget : mapGet S partner with
    | none =>
      rw [addMessageToState_new hget]
      apply stateInvB_mapSet hS
      simp [bucketInvB, sortedByTs]
    | some existing =>
      by_cases hdup : existing.messages.any (fun msg => msg.id = m.id) = true
      · rw [addMessageToState_dup hget hdup]
        exact hS
      · have hdupf : existing.messages.any (fun msg => msg.id = m.id) = false := by
          revert hdup
          cases existing.messages.any (fun msg => msg.id = m.id) <;> simp
        cases hrec : reconcileOptimistic m existing.messages with
        | some replaced =>
          rw [addMessageToState_reconcile hget hdupf hrec]
          exact stateInvB_mapSet hS
            (bucketInvB_mk _ m _ _ (sortedByTs_sortByCreated replaced))
        | none =>
          rw [addMessageToState_append hget hdupf hrec]
          exact stateInvB_mapSet hS
            (bucketInvB_mk _ m _ _ (sortedByTs_sortByCreated (existing.messages ++ [m])))

/-- Witness for C4: the invariant is established on concrete states — a
fresh bucket created by `addMessageToState` on the empty map, and a merge of
a sorted delta. -/
theorem c4_reducer_invariants_witness :
    stateInvB (addMessageToState [] sampleMsg "r" .nip04) = true ∧
    stateInvB (mergeMessagesIntoState [] (singletonMergeDelta sampleMsg "r" .nip04)) = true := by
  constructor
  · exact c4_reducer_invariants.2.1 [] sampleMsg "r" .nip04 (by decide)
  · exact c4_reducer_invariants.2.2.1 [] (singletonMergeDelta sampleMsg "r" .nip04)
      (by decide) (by decide)

/-! ### Case equations for the backfill loops -/

theorem loadPastNIP4Loop_fuel (query : Int → Nat → Except Unit (List NEvent))
    (u : String) (acc : List NEvent) (p : Nat) (s : Int) :
    loadPastNIP4Loop query u 0 acc p s = acc := rfl

theorem loadPastNIP4Loop_stop (query : Int → Nat → Except Unit (List NEvent))
    (u : String) (fuel : Nat) (acc : List NEvent) (p : Nat) (s : Int)
    (hp : ¬ p < SCAN_TOTAL_LIMIT) :
    loadPastNIP4Loop query u (fuel + 1) acc p s = acc := by
  simp only [loadPastNIP4Loop, if_neg hp]

theorem loadPastNIP4Loop_err (query : Int → Nat → Except Unit (List NEvent))
    (u : String) (fuel : Nat) (acc : List NEvent) (p : Nat) (s : Int)
    (hp : p < SCAN_TOTAL_LIMIT)
    (herr : query s (min SCAN_BATCH_SIZE (SCAN_TOTAL_LIMIT - p)) = .error ()) :
    loadPastNIP4Loop query u (fuel + 1) acc p s = acc := by
  simp only [loadPastNIP4Loop, if_pos hp, herr]

theorem loadPastNIP4Loop_empty (query : Int → Nat → Except Unit (List NEvent))
    (u : String) (fuel : Nat) (acc : List NEvent) (p : Nat) (s : Int)
    (batch : List NEvent) (hp : p < SCAN_TOTAL_LIMIT)
    (hq : query s (min SCAN_BATCH_SIZE (SCAN_TOTAL_LIMIT - p)) = .ok batch)
    (hz : (batch.filter validateDMEvent).length = 0) :
    loadPastNIP4Loop query u (fuel + 1) acc p s = acc := by
  simp only [loadPastNIP4Loop, if_pos hp, hq, if_pos hz]

theorem loadPastNIP4Loop_break (query : Int → Nat → Except Unit (List NEvent))
    (u : String) (fuel : Nat) (acc : List NEvent) (p : Nat) (s : Int)
    (batch : List NEvent) (hp : p < SCAN_TOTAL_LIMIT)
    (hq : query s (min SCAN_BATCH_SIZE (SCAN_TOTAL_LIMIT - p)) = .ok batch)
    (hz : ¬ (batch.filter validateDMEvent).length = 0)
    (hlt : (batch.filter validateDMEvent).length
      < (min SCAN_BATCH_SIZE (SCAN_TOTAL_LIMIT - p)) * 2) :
    loadPastNIP4Loop query u (fuel + 1) acc p s = acc ++ batch.filter validateDMEvent := by
  simp only [loadPastNIP4Loop, if_pos hp, hq, if_neg hz, if_pos hlt]

theorem loadPastNIP4Loop_cont (query : Int → Nat → Except Unit (List NEvent))
    (u : String) (fuel : Nat) (acc : List NEvent) (p : Nat) (s : Int)
    (batch : List NEvent) (hp : p < SCAN_TOTAL_LIMIT)
    (hq : query s (min SCAN_BATCH_SIZE (SCAN_TOTAL_LIMIT - p)) = .ok batch)
    (hz : ¬ (batch.filter validateDMEvent).length = 0)
    (hge : ¬ (batch.filter validateDMEvent).length
      < (min SCAN_BATCH_SIZE (SCAN_TOTAL_LIMIT - p)) * 2) :
    loadPastNIP4Loop query u (fuel + 1) acc p s =
      loadPastNIP4Loop query u fuel (acc ++ batch.filter validateDMEvent)
        (p + (batch.filter validateDMEvent).length)
        (nip4NextSince (batch.filter validateDMEvent) u s) := by
  simp only [loadPastNIP4Loop, if_pos hp, hq, if_neg hz, if_neg hge]

theorem loadPastNIP17Loop_fuel (query : Int → Nat → Except Unit (List NEvent))
    (acc : List NEvent) (p : Nat) (s : Int) :
    loadPastNIP17Loop query 0 acc p s = acc := rfl

theorem loadPastNIP17Loop_stop (query : Int → Nat → Except Unit (List NEvent))
    (fuel : Nat) (acc : List NEvent) (p : Nat) (s : Int)
    (hp : ¬ p < SCAN_TOTAL_LIMIT) :
    loadPastNIP17Loop query (fuel + 1) acc p s = acc := by
  simp only [loadPastNIP17Loop, if_neg hp]

theorem loadPastNIP17Loop_err (query : Int → Nat → Except Unit (List NEvent))
    (fuel : Nat) (acc : List NEvent) (p : Nat) (s : Int)
    (hp : p < SCAN_TOTAL_LIMIT)
    (herr : query s (min SCAN_BATCH_SIZE (SCAN_TOTAL_LIMIT - p)) = .error ()) :
    loadPastNIP17Loop query (fuel + 1) acc p s = acc := by
  simp only [loadPastNIP17Loop, if_pos hp, herr]

theorem loadPastNIP17Loop_empty (query : Int → Nat → Except Unit (List NEvent))
    (fuel : Nat) (acc : List NEvent) (p : Nat) (s : Int) (batch : List NEvent)
    (hp : p < SCAN_TOTAL_LIMIT)
    (hq : query s (min SCAN_BATCH_SIZE (SCAN_TOTAL_LIMIT - p)) = .ok batch)
    (hz : batch.length = 0) :
    loadPastNIP17Loop query (fuel + 1) acc p s = acc := by
  simp only [loadPastNIP17Loop, if_pos hp, hq, if_pos hz]

theorem loadPastNIP17Loop_break (query : Int → Nat → Except Unit (List NEvent))
    (fuel : Nat) (acc : List NEvent) (p : Nat) (s : Int) (batch : List NEvent)
    (hp : p < SCAN_TOTAL_LIMIT)
    (hq : query s (min SCAN_BATCH_SIZE (SCAN_TOTAL_LIMIT - p)) = .ok batch)
    (hz : ¬ batch.length = 0)
    (hlt : batch.length < min SCAN_BATCH_SIZE (SCAN_TOTAL_LIMIT - p)) :
    loadPastNIP17Loop query (fuel + 1) acc p s = acc ++ batch := by
  simp only [loadPastNIP17Loop, if_pos hp, hq, if_neg hz, if_pos hlt]

theorem loadPastNIP17Loop_cont (query : Int → Nat → Except Unit (List NEvent))
    (fuel : Nat) (acc : List NEvent) (p : Nat) (s : Int) (batch : List NEvent)
    (hp : p < SCAN_TOTAL_LIMIT)
    (hq : query s (min SCAN_BATCH_SIZE (SCAN_TOTAL_LIMIT - p)) = .ok batch)
    (hz : ¬ batch.length = 0)
    (hge : ¬ batch.length < min SCAN_BATCH_SIZE (SCAN_TOTAL_LIMIT - p)) :
    loadPastNIP17Loop query (fuel + 1) acc p s =
      loadPastNIP17Loop query fuel (acc ++ batch) (p + batch.length)
        ((minTs? batch).getD s) := by
  simp only [loadPastNIP17Loop, if_pos hp, hq, if_neg hz, if_neg hge]

/-! ### C7: errors during backfill and `lastSync` -/

/-- C7 counterexample: with a relay oracle that throws on the very first
batch, the backfill returns no events, yet `queryRelaysForMessagesSince`
still lands in its "no new messages" branch and advances `lastSync.nip4`
from `some 50` to the current wall-clock time `some 100` — contradicting
"a fetch that throws on its very first batch must not advance lastSync". -/
theorem c7_counterexample :
    loadPastNIP4Messages (fun _ _ => .error ()) "u" (some 50) = [] ∧
    (queryRelaysNIP4 (fun _ _ => .error ()) none (some "u") [] (some 50) (some 50)
        100 100000).lastSyncValue = some 100 ∧
    (some (100 : Int) ≠ some (50 : Int)) := by
  refine ⟨rfl, rfl, by decide⟩

/-- C7 (amended): when a relay batch query throws, the backfill loop for that
protocol breaks immediately (returning only what was accumulated); and for a
present user (and, for NIP-17, an enabled protocol) `lastSync[protocol]` is
set to the current wall-clock time after *every* fetch — whether it threw
(even on its very first batch) or returned no events — because the exception
is swallowed inside the loader and the caller cannot distinguish it from an
empty result. -/
theorem c7_amended :
    (∀ (query : Int → Nat → Except Unit (List NEvent)) (u : String) (fuel : Nat)
        (acc : List NEvent) (p : Nat) (s : Int),
      query s (min SCAN_BATCH_SIZE (SCAN_TOTAL_LIMIT - p)) = .error () →
      loadPastNIP4Loop query u (fuel + 1) acc p s = acc) ∧
    (∀ (query : Int → Nat → Except Unit (List NEvent)) (fuel : Nat)
        (acc : List NEvent) (p : Nat) (s : Int),
      query s (min SCAN_BATCH_SIZE (SCAN_TOTAL_LIMIT - p)) = .error () →
      loadPastNIP17Loop query (fuel + 1) acc p s = acc) ∧
    (∀ (query : Int → Nat → Except Unit (List NEvent))
        (dec : Option (String → String → Except Unit String)) (S : MessagesState)
        (ls since : Option Int) (u : String) (nowSec nowMs : Int),
      (queryRelaysNIP4 query dec (some u) S ls since nowSec nowMs).lastSyncValue
        = some nowSec) ∧
    (∀ (query : Int → Nat → Except Unit (List NEvent))
        (dec : Option (String → String → Except Unit String))
        (parse : String → Except Unit NEvent) (S : MessagesState)
        (ls since : Option Int) (u : String) (nowSec nowMs : Int),
      (queryRelaysNIP17 query dec parse true (some u) S ls since nowSec nowMs).lastSyncValue
        = some nowSec) := by
  refine ⟨?_, ?_, ?_, ?_⟩
  · intro query u fuel acc p s herr
    by_cases hp : p < SCAN_TOTAL_LIMIT
    · exact loadPastNIP4Loop_err query u fuel acc p s hp herr
    · exact loadPastNIP4Loop_stop query u fuel acc p s hp
  · intro query fuel acc p s herr
    by_cases hp : p < SCAN_TOTAL_LIMIT
    · exact loadPastNIP17Loop_err query fuel acc p s hp herr
    · exact loadPastNIP17Loop_stop query fuel acc p s hp
  · intro query dec S ls since u nowSec nowMs
    by_cases h : (loadPastNIP4Messages query u since).length > 0
    · simp [queryRelaysNIP4, if_pos h]
    · simp [queryRelaysNIP4, if_neg h]
  · intro query dec parse S ls since u nowSec nowMs
    by_cases h : (loadPastNIP17Messages query since).length > 0
    · simp [queryRelaysNIP17, if_pos h]
    · simp [queryRelaysNIP17, if_neg h]

/-- Witness for C7 (amended) with a concrete always-throwing oracle. -/
theorem c7_amended_witness :
    loadPastNIP4Loop (fun _ _ => .error ()) "u" 1 [] 0 0 = [] ∧
    loadPastNIP17Loop (fun _ _ => .error ()) 1 [] 0 0 = [] ∧
    (queryRelaysNIP4 (fun _ _ => .error ()) none (some "u") [] (some 50) (some 50)
        100 100000).lastSyncValue = some 100 ∧
    (queryRelaysNIP17 (fun _ _ => .error ()) none (fun _ => .error ()) true (some "u")
        [] (some 50) (some 50) 100 100000).lastSyncValue = some 100 :=
  ⟨c7_amended.1 (fun _ _ => .error ()) "u" 0 [] 0 0 rfl,
   c7_amended.2.1 (fun _ _ => .error ()) 0 [] 0 0 rfl,
   c7_amended.2.2.1 (fun _ _ => .error ()) none [] (some 50) (some 50) "u" 100 100000,
   c7_amended.2.2.2 (fun _ _ => .error ()) none (fun _ => .error ()) [] (some 50)
     (some 50) "u" 100 100000⟩

/-! ### C8: pagination termination and the global scan cap -/

theorem nip4_cap_aux (fuel : Nat) :
    ∀ (query : Int → Nat → Except Unit (List NEvent)) (u : String)
      (acc : List NEvent) (p : Nat) (s : Int),
    (∀ (sq : Int) (lim : Nat) (evs : List NEvent),
      query sq lim = .ok evs → evs.length ≤ 2 * lim) →
    p % 2000 = 0 → p ≤ SCAN_TOTAL_LIMIT →
    (loadPastNIP4Loop query u fuel acc p s).length ≤
      acc.length + (SCAN_TOTAL_LIMIT - p) := by
  induction fuel with
  | zero =>
    intro query u acc p s hcomp hmod hle
    rw [loadPastNIP4Loop_fuel]
    omega
  | succ fuel ih =>
    intro query u acc p s hcomp hmod hle
    have h20 : SCAN_TOTAL_LIMIT = 20000 := rfl
    have h1000 : SCAN_BATCH_SIZE = 1000 := rfl
    by_cases hp : p < SCAN_TOTAL_LIMIT
    · cases hq : query s (min SCAN_BATCH_SIZE (SCAN_TOTAL_LIMIT - p)) with
      | error e =>
        cases e
        rw [loadPastNIP4Loop_err query u fuel acc p s hp hq]
        omega
      | ok batch =>
        have hbatch := hcomp s (min SCAN_BATCH_SIZE (SCAN_TOTAL_LIMIT - p)) batch hq
        have hval : (batch.filter validateDMEvent).length ≤ batch.length :=
          List.length_filter_le _ _
        by_cases hz : (batch.filter validateDMEvent).length = 0
        · rw [loadPastNIP4Loop_empty query u fuel acc p s batch hp hq hz]
          omega
        · by_cases hlt : (batch.filter validateDMEvent).length
            < (min SCAN_BATCH_SIZE (SCAN_TOTAL_LIMIT - p)) * 2
          · rw [loadPastNIP4Loop_break query u fuel acc p s batch hp hq hz hlt,
              List.length_append]
            omega
          · rw [loadPastNIP4Loop_cont query u fuel acc p s batch hp hq hz hlt]
            have hmod2 : (p + (batch.filter validateDMEvent).length) % 2000 = 0 := by omega
            have hle2 : p + (batch.filter validateDMEvent).length ≤ SCAN_TOTAL_LIMIT := by
              omega
            have hrec := ih query u (acc ++ batch.filter validateDMEvent)
              (p + (batch.filter validateDMEvent).length)
              (nip4NextSince (batch.filter validateDMEvent) u s) hcomp hmod2 hle2
            rw [List.length_append] at hrec
            omega
    · rw [loadPastNIP4Loop_stop query u fuel acc p s hp]
      omega

theorem nip17_cap_aux (fuel : Nat) :
    ∀ (query : Int → Nat → Except Unit (List NEvent))
      (acc : List NEvent) (p : Nat) (s : Int),
    (∀ (sq : Int) (lim : Nat) (evs : List NEvent),
      query sq lim = .ok evs → evs.length ≤ lim) →
    p ≤ SCAN_TOTAL_LIMIT →
    (loadPastNIP17Loop query fuel acc p s).length ≤
      acc.length + (SCAN_TOTAL_LIMIT - p) := by
  induction fuel with
  | zero =>
    intro query acc p s hcomp hle
    rw [loadPastNIP17Loop_fuel]
    omega
  | succ fuel ih =>
    intro query acc p s hcomp hle
    have h20 : SCAN_TOTAL_LIMIT = 20000 := rfl
    have h1000 : SCAN_BATCH_SIZE = 1000 := rfl
    by_cases hp : p < SCAN_TOTAL_LIMIT
    · cases hq : query s (min SCAN_BATCH_SIZE (SCAN_TOTAL_LIMIT - p)) with
      | error e =>
        cases e
        rw [loadPastNIP17Loop_err query fuel acc p s hp hq]
        omega
      | ok batch =>
        have hbatch := hcomp s (min SCAN_BATCH_SIZE (SCAN_TOTAL_LIMIT - p)) batch hq
        by_cases hz : batch.length = 0
        · rw [loadPastNIP17Loop_empty query fuel acc p s batch hp hq hz]
          omega
        · by_cases hlt : batch.length < min SCAN_BATCH_SIZE (SCAN_TOTAL_LIMIT - p)
          · rw [loadPastNIP17Loop_break query fuel acc p s batch hp hq hz hlt,
              List.length_append]
            omega
          · rw [loadPastNIP17Loop_cont query fuel acc p s batch hp hq hz hlt]
            have hle2 : p + batch.length ≤ SCAN_TOTAL_LIMIT := by omega
            have hrec := ih query (acc ++ batch) (p + batch.length)
              ((minTs? batch).getD s) hcomp hle2
            rw [List.length_append] at hrec
            omega
    · rw [loadPastNIP17Loop_stop query fuel acc p s hp]
      omega

/-- C8: a batch with fewer (valid) events than the batch limit
(`min 1000 (20000 - processed)`) terminates the pagination loop of either
protocol at that iteration, and — for relays honouring the `limit` field of
each filter (two filters for NIP-04, one for NIP-17) — the loops never
accumulate more than 20000 events in total. -/
theorem c8_backfill_termination_and_cap :
    (∀ (query : Int → Nat → Except Unit (List NEvent)) (u : String) (fuel : Nat)
        (acc : List NEvent) (p : Nat) (s : Int) (batch : List NEvent),
      p < SCAN_TOTAL_LIMIT →
      query s (min SCAN_BATCH_SIZE (SCAN_TOTAL_LIMIT - p)) = .ok batch →
      (batch.filter validateDMEvent).length ≠ 0 →
      (batch.filter validateDMEvent).length < min SCAN_BATCH_SIZE (SCAN_TOTAL_LIMIT - p) →
      loadPastNIP4Loop query u (fuel + 1) acc p s = acc ++ batch.filter validateDMEvent) ∧
    (∀ (query : Int → Nat → Except Unit (List NEvent)) (fuel : Nat)
        (acc : List NEvent) (p : Nat) (s : Int) (batch : List NEvent),
      p < SCAN_TOTAL_LIMIT →
      query s (min SCAN_BATCH_SIZE (SCAN_TOTAL_LIMIT - p)) = .ok batch →
      batch.length ≠ 0 →
      batch.length < min SCAN_BATCH_SIZE (SCAN_TOTAL_LIMIT - p) →
      loadPastNIP17Loop query (fuel + 1) acc p s = acc ++ batch) ∧
    (∀ (query : Int → Nat → Except Unit (List NEvent)) (u : String) (since : Option Int),
      (∀ (sq : Int) (lim : Nat) (evs : List NEvent),
        query sq lim = .ok evs → evs.length ≤ 2 * lim) →
      (loadPastNIP4Messages query u since).length ≤ SCAN_TOTAL_LIMIT) ∧
    (∀ (query : Int → Nat → Except Unit (List NEvent)) (since : Option Int),
      (∀ (sq : Int) (lim : Nat) (evs : List NEvent),
        query sq lim = .ok evs → evs.length ≤ lim) →
      (loadPastNIP17Messages query since).length ≤ SCAN_TOTAL_LIMIT) := by
  refine ⟨?_, ?_, ?_, ?_⟩
  · intro query u fuel acc p s batch hp hq hz hlt
    exact loadPastNIP4Loop_break query u fuel acc p s batch hp hq hz (by omega)
  · intro query fuel acc p s batch hp hq hz hlt
    exact loadPastNIP17Loop_break query fuel acc p s batch hp hq hz hlt
  · intro query u since hcomp
    have h := nip4_cap_aux (SCAN_TOTAL_LIMIT + 1) query u [] 0
      (nip4InitialSince since) hcomp (by decide) (by omega)
    simpa [loadPastNIP4Messages] using h
  · intro query since hcomp
    have h := nip17_cap_aux (SCAN_TOTAL_LIMIT + 1) query [] 0
      (nip17InitialSince since) hcomp (by omega)
    simpa [loadPastNIP17Messages] using h

/-- A valid kind-4 event used by the C8 witness. -/
def c8event : NEvent :=
  { id := "e", pubkey := "a", kind := 4, created_at := 5, tags := [["p", "b"]],
    content := "x", sig := "s" }

/-- Witness for C8: a single-event batch (fewer than the 1000 batch limit)
terminates the loop after one iteration, and a compliant empty-result oracle
stays within the 20000-event cap. -/
theorem c8_backfill_termination_and_cap_witness :
    loadPastNIP4Loop (fun _ _ => .ok [c8event]) "u" 1 [] 0 0
        = [] ++ List.filter validateDMEvent [c8event] ∧
    loadPastNIP17Loop (fun _ _ => .ok [c8event]) 1 [] 0 0 = [] ++ [c8event] ∧
    (loadPastNIP4Messages (fun _ _ => .ok []) "u" none).length ≤ SCAN_TOTAL_LIMIT ∧
    (loadPastNIP17Messages (fun _ _ => .ok []) none).length ≤ SCAN_TOTAL_LIMIT := by
  have hcomp4 : ∀ (sq : Int) (lim : Nat) (evs : List NEvent),
      (fun (_ : Int) (_ : Nat) => Except.ok (ε := Unit) ([] : List NEvent)) sq lim = .ok evs →
      evs.length ≤ 2 * lim := by
    intro sq lim evs h
    injection h with h2
    rw [← h2]
    simp
  have hcomp17 : ∀ (sq : Int) (lim : Nat) (evs : List NEvent),
      (fun (_ : Int) (_ : Nat) => Except.ok (ε := Unit) ([] : List NEvent)) sq lim = .ok evs →
      evs.length ≤ lim := by
    intro sq lim evs h
    injection h with h2
    rw [← h2]
    simp
  refine ⟨?_, ?_, ?_, ?_⟩
  · exact c8_backfill_termination_and_cap.1 (fun _ _ => .ok [c8event]) "u" 0 [] 0 0 [c8event]
      (by decide) rfl (by decide) (by decide)
  · exact c8_backfill_termination_and_cap.2.1 (fun _ _ => .ok [c8event]) 0 [] 0 0 [c8event]
      (by decide) rfl (by decide) (by decide)
  · exact c8_backfill_termination_and_cap.2.2.1 (fun _ _ => .ok []) "u" none hcomp4
  · exact c8_backfill_termination_and_cap.2.2.2 (fun _ _ => .ok []) none hcomp17
